import Mathlib

/-!
# Verification of `createSequentialEffectRunner`

Shallow embedding of the sequential effect runner from
`src/createSequentialEffectRunner.ts` of `use-sequential-effect`.

The runner is a small asynchronous state machine:

```ts
let lastEffect: Effect | null = null;
let stopRequested = false;
let currentCleanup: Cleanup | undefined;
let isLooping = false;

function run(effect)  { lastEffect = effect; stopRequested = false; ensureLoop(); }
function stop()       { lastEffect = null; stopRequested = true; ensureLoop(); }
function ensureLoop() {
  if (isLooping) return;
  isLooping = true;
  loop().finally(() => { isLooping = false;
                         if (stopRequested || lastEffect) ensureLoop(); });
}
async function loop() {
  while (true) {
    const shouldStop = stopRequested;
    const next = lastEffect;
    if (!shouldStop && next == null) break;
    stopRequested = false;  lastEffect = null;
    if (currentCleanup) { const fn = currentCleanup; currentCleanup = undefined;
                          try { await fn(); } catch (e) { console.error(e); } }
    if (shouldStop) continue;
    if (next) { try { const maybeCleanup = await next();
                      if (typeof maybeCleanup === "function") currentCleanup = maybeCleanup;
                    } catch (e) { console.error(e); } }
  }
}
```

We model this as a labelled transition system.  Tasks (effects) are
identified by natural numbers; the cleanup a task returns is identified by
the id of the task that produced it.  JavaScript executes an `async`
function body synchronously up to its first `await`, so:

* `run`/`stop` from an idle runner execute the loop's first synchronous
  segment (up to the first `await`, or up to `break`) *inside* the call;
* a promise settlement and the resumption of the awaiting code are two
  distinct points (other code may run between them: the continuation is a
  microtask);
* the `.finally` callback of `loop()` is likewise a separate microtask.

The only suspension points are therefore: awaiting a cleanup, the
resumption after a cleanup, awaiting a setup, the resumption after a
setup, and the pending `.finally` callback.  The program counter `PC`
below records exactly these, and `startLoop` is the synchronous segment of
the loop body from the top of `while (true)` to the next suspension point
(at most two snapshot iterations can run before suspending, because the
`continue` taken for a shutdown snapshot clears both flags first).

Error behaviour is encoded in the outcome labels: `SetupOutcome.threw`
(resp. `cleanupDone _ false`) means the awaited promise rejected and the
rejection was caught by the `try`/`catch` in `loop` and reported via
`console.error`; no exception propagates.
-/

namespace SeqEffect

/-- Result of awaiting a task's setup (`await next()`): it returned a
cleanup function, returned a non-function (`undefined`), or threw /
rejected (caught and reported by `loop`). -/
inductive SetupOutcome
  | retCleanup
  | retNone
  | threw
deriving DecidableEq, Repr

/-- Observable events of a run of the system.  `cleanupStart c` /
`cleanupDone c ok` mark invocation and settlement of the cleanup produced
by task `c`; `ok = false` means the cleanup rejected (caught and
reported).  `loopStarted` / `loopExited` mark `ensureLoop` invoking
`loop()` and the `.finally` callback running. -/
inductive Event
  | runCall (t : Nat)
  | stopCall
  | loopStarted
  | loopExited
  | cleanupStart (c : Nat)
  | cleanupDone (c : Nat) (ok : Bool)
  | setupStart (t : Nat)
  | setupDone (t : Nat) (o : SetupOutcome)
deriving DecidableEq, Repr

/-- Program counter: the suspension point the driver loop is parked at.
`cleanup sh nx c` is `await fn()` (cleanup of task `c` in flight) with the
iteration's snapshot `shouldStop = sh`, `next = nx` captured *before* the
await, exactly as in the source.  `afterCleanup` / `afterSetup` are the
settled-but-not-yet-resumed microtask gaps.  `finishing` is the window
between `loop()` returning and its `.finally` callback running. -/
inductive PC
  | idle
  | cleanup (sh : Bool) (nx : Option Nat) (c : Nat)
  | afterCleanup (sh : Bool) (nx : Option Nat)
  | setup (t : Nat)
  | afterSetup (t : Nat) (o : SetupOutcome)
  | finishing
deriving DecidableEq, Repr

/-- The runner's mutable state: the four `let` variables of
`createSequentialEffectRunner`, plus the loop's program counter. -/
structure RState where
  lastEffect : Option Nat
  stopRequested : Bool
  currentCleanup : Option Nat
  isLooping : Bool
  pc : PC
deriving DecidableEq, Repr

/-- State of a freshly created runner. -/
def initState : RState :=
  { lastEffect := none, stopRequested := false, currentCleanup := none,
    isLooping := false, pc := PC.idle }

/-- The synchronous segment of `loop` starting at the top of
`while (true)`, run until the next suspension point.  Mirrors lines 36-68
of the source:

* `(false, none, _)`: `!shouldStop && next == null` → `break`; the loop
  returns and its `.finally` is pending (`PC.finishing`).  Note the break
  happens *before* the `currentCleanup` check, so a stored cleanup is left
  in place.
* snapshot taken, flags cleared, `currentCleanup` present: clear it and
  start awaiting it (`PC.cleanup sh nx c`).
* no stored cleanup and `shouldStop`: `continue`; the next snapshot reads
  the just-cleared flags `(false, none)` synchronously and breaks.
* no stored cleanup, `shouldStop` false, `next = some t`: start awaiting
  `next()` (`PC.setup t`). -/
def startLoop (s : RState) : RState × List Event :=
  match s.stopRequested, s.lastEffect, s.currentCleanup with
  | false, none, _ =>
      ({ s with pc := PC.finishing }, [])
  | true, nx, some c =>
      ({ s with stopRequested := false, lastEffect := none,
                currentCleanup := none, pc := PC.cleanup true nx c },
       [Event.cleanupStart c])
  | false, some t, some c =>
      ({ s with stopRequested := false, lastEffect := none,
                currentCleanup := none, pc := PC.cleanup false (some t) c },
       [Event.cleanupStart c])
  | true, _, none =>
      ({ s with stopRequested := false, lastEffect := none, pc := PC.finishing }, [])
  | false, some t, none =>
      ({ s with stopRequested := false, lastEffect := none, pc := PC.setup t },
       [Event.setupStart t])

/-- `ensureLoop()`: if the loop is already running do nothing, otherwise
mark it running and execute `loop()` synchronously up to its first
suspension point. -/
def ensureLoop (s : RState) : RState × List Event :=
  if s.isLooping then (s, [])
  else
    let p := startLoop { s with isLooping := true }
    (p.1, Event.loopStarted :: p.2)

/-- Actions that drive the system: the two public calls, settlement of the
awaited cleanup / setup promise (with its outcome), running the pending
resumption microtask, and running the pending `.finally` callback. -/
inductive Act
  | runA (t : Nat)
  | stopA
  | cleanupSettle (ok : Bool)
  | setupSettle (o : SetupOutcome)
  | microA
  | finallyA
deriving DecidableEq, Repr

/-- One atomic step of the system.  `none` means the action is not enabled
in this state (e.g. there is no settled promise to resume).  `runA`/`stopA`
are enabled in every state, as the caller may invoke them at any time. -/
def step (s : RState) : Act → Option (RState × List Event)
  | Act.runA t =>
      let p := ensureLoop { s with lastEffect := some t, stopRequested := false }
      some (p.1, Event.runCall t :: p.2)
  | Act.stopA =>
      let p := ensureLoop { s with lastEffect := none, stopRequested := true }
      some (p.1, Event.stopCall :: p.2)
  | Act.cleanupSettle ok =>
      match s.pc with
      | PC.cleanup sh nx c =>
          some ({ s with pc := PC.afterCleanup sh nx }, [Event.cleanupDone c ok])
      | _ => none
  | Act.setupSettle o =>
      match s.pc with
      | PC.setup t => some ({ s with pc := PC.afterSetup t o }, [Event.setupDone t o])
      | _ => none
  | Act.microA =>
      match s.pc with
      | PC.afterCleanup sh nx =>
          if sh then some (startLoop s)
          else
            match nx with
            | some t => some ({ s with pc := PC.setup t }, [Event.setupStart t])
            | none => some (startLoop s)
      | PC.afterSetup t o =>
          if o = SetupOutcome.retCleanup then
            some (startLoop { s with currentCleanup := some t })
          else
            some (startLoop s)
      | _ => none
  | Act.finallyA =>
      match s.pc with
      | PC.finishing =>
          let s₁ := { s with isLooping := false }
          if s₁.stopRequested ∨ s₁.lastEffect ≠ none then
            let p := ensureLoop s₁
            some (p.1, Event.loopExited :: p.2)
          else
            some ({ s₁ with pc := PC.idle }, [Event.loopExited])
      | _ => none

/-- Run a list of actions from a state, accumulating the emitted events;
`none` if some action along the way is not enabled. -/
def exec (s : RState) : List Act → Option (RState × List Event)
  | [] => some (s, [])
  | a :: as =>
      match step s a with
      | none => none
      | some (s₁, e₁) =>
          match exec s₁ as with
          | none => none
          | some (s₂, e₂) => some (s₂, e₁ ++ e₂)

/-- A state together with the event trace that produced it is reachable if
some action sequence drives the fresh runner there. -/
def Reach (s : RState) (tr : List Event) : Prop :=
  ∃ acts, exec initState acts = some (s, tr)

example :
    exec initState [Act.runA 0, Act.setupSettle SetupOutcome.retCleanup,
      Act.microA, Act.finallyA] =
    some ({ lastEffect := none, stopRequested := false, currentCleanup := some 0,
            isLooping := false, pc := PC.idle },
      [Event.runCall 0, Event.loopStarted, Event.setupStart 0,
       Event.setupDone 0 SetupOutcome.retCleanup, Event.loopExited]) := by
  decide

/-- `true` when the program counter is inside the loop body between the
snapshot and the return to the top of the `while` (cleanup or setup in
flight or about to be resumed), i.e. past the point where `currentCleanup`
was cleared for this iteration. -/
def inLoopBody : PC → Bool
  | PC.cleanup _ _ _ => true
  | PC.afterCleanup _ _ => true
  | PC.setup _ => true
  | PC.afterSetup _ _ => true
  | _ => false

/-- Basic state invariant of the runner:
1. `isLooping` is set exactly when the loop is somewhere in flight;
2. an idle runner has no pending task and no pending shutdown;
3. a pending task and a pending shutdown request never coexist;
4. while a cleanup/setup is in flight or awaiting resumption,
   `currentCleanup` is empty (it was cleared before the cleanup await and
   is only re-set when a setup resumption stores a new one). -/
def Inv (s : RState) : Prop :=
  (s.isLooping = true ↔ s.pc ≠ PC.idle) ∧
  (s.pc = PC.idle → s.lastEffect = none ∧ s.stopRequested = false) ∧
  (s.lastEffect ≠ none → s.stopRequested = false) ∧
  (inLoopBody s.pc = true → s.currentCleanup = none)

instance (s : RState) : Decidable (Inv s) := by
  unfold Inv; infer_instance

/-- Exhaustive characterisation of the synchronous loop segment: which of
the source branches fires, and the exact resulting state and events. -/
lemma startLoop_cases (s : RState) :
    (s.stopRequested = false ∧ s.lastEffect = none ∧
        startLoop s = ({ s with pc := PC.finishing }, [])) ∨
    (∃ c, s.currentCleanup = some c ∧
        (s.stopRequested = true ∨ s.lastEffect ≠ none) ∧
        startLoop s =
          ({ s with stopRequested := false, lastEffect := none,
                    currentCleanup := none,
                    pc := PC.cleanup s.stopRequested s.lastEffect c },
            [Event.cleanupStart c])) ∨
    (s.stopRequested = true ∧ s.currentCleanup = none ∧
        startLoop s =
          ({ s with stopRequested := false, lastEffect := none,
                    pc := PC.finishing }, [])) ∨
    (∃ t, s.stopRequested = false ∧ s.lastEffect = some t ∧
        s.currentCleanup = none ∧
        startLoop s =
          ({ s with stopRequested := false, lastEffect := none,
                    pc := PC.setup t }, [Event.setupStart t])) := by
  obtain ⟨le, sr, cc, il, pc⟩ := s
  cases sr <;> rcases le with _ | t <;> rcases cc with _ | c <;>
    simp [startLoop]

/-- The loop segment never touches `isLooping`. -/
lemma startLoop_isLooping (s : RState) :
    (startLoop s).1.isLooping = s.isLooping := by
  rcases startLoop_cases s with ⟨_, _, h⟩ | ⟨c, _, _, h⟩ | ⟨_, _, h⟩ |
    ⟨t, _, _, _, h⟩ <;> simp [h]

/-- The loop segment never touches task ids recorded in the state other
than by consuming `lastEffect`; in particular it never parks at `idle`. -/
lemma startLoop_pc_ne_idle (s : RState) : (startLoop s).1.pc ≠ PC.idle := by
  rcases startLoop_cases s with ⟨_, _, h⟩ | ⟨c, _, _, h⟩ | ⟨_, _, h⟩ |
    ⟨t, _, _, _, h⟩ <;> simp [h]

/-- After the loop segment the pending flags are consumed: no pending
task, no pending shutdown request. -/
lemma startLoop_flags (s : RState) :
    (startLoop s).1.lastEffect = none ∧ (startLoop s).1.stopRequested = false := by
  rcases startLoop_cases s with ⟨h1, h2, h⟩ | ⟨c, _, _, h⟩ | ⟨_, _, h⟩ |
    ⟨t, _, _, _, h⟩ <;> simp [h]
  exact ⟨h2, h1⟩

/-- If the loop segment parks inside the body, `currentCleanup` is empty. -/
lemma startLoop_body_cc (s : RState) :
    inLoopBody (startLoop s).1.pc = true → (startLoop s).1.currentCleanup = none := by
  rcases startLoop_cases s with ⟨_, _, h⟩ | ⟨c, _, _, h⟩ | ⟨_, _, h⟩ |
    ⟨t, _, _, hcc, h⟩ <;> simp [h, inLoopBody]
  exact hcc

lemma inv_startLoop {s : RState} (hil : s.isLooping = true) :
    Inv (startLoop s).1 := by
  refine ⟨?_, ?_, ?_, startLoop_body_cc s⟩
  · rw [startLoop_isLooping]
    simp [hil, startLoop_pc_ne_idle s]
  · intro h; exact absurd h (startLoop_pc_ne_idle s)
  · intro _; exact (startLoop_flags s).2

lemma ensureLoop_of_looping {s : RState} (h : s.isLooping = true) :
    ensureLoop s = (s, []) := by
  simp [ensureLoop, h]

lemma ensureLoop_of_idle {s : RState} (h : s.isLooping = false) :
    ensureLoop s =
      ((startLoop { s with isLooping := true }).1,
        Event.loopStarted :: (startLoop { s with isLooping := true }).2) := by
  simp [ensureLoop, h]

/-- Complete case analysis of an enabled step: exactly one of the listed
shapes applies, and it determines the successor state and events. -/
lemma step_characterize {s : RState} {a : Act} {s' : RState} {evs : List Event}
    (h : step s a = some (s', evs)) :
    (∃ t, a = Act.runA t ∧ s.isLooping = true ∧
        s' = { s with lastEffect := some t, stopRequested := false } ∧
        evs = [Event.runCall t]) ∨
    (∃ t, a = Act.runA t ∧ s.isLooping = false ∧
        s' = (startLoop { s with lastEffect := some t, stopRequested := false, isLooping := true }).1 ∧
        evs = Event.runCall t :: Event.loopStarted ::
          (startLoop { s with lastEffect := some t, stopRequested := false, isLooping := true }).2) ∨
    (a = Act.stopA ∧ s.isLooping = true ∧
        s' = { s with lastEffect := none, stopRequested := true } ∧
        evs = [Event.stopCall]) ∨
    (a = Act.stopA ∧ s.isLooping = false ∧
        s' = (startLoop { s with lastEffect := none, stopRequested := true, isLooping := true }).1 ∧
        evs = Event.stopCall :: Event.loopStarted ::
          (startLoop { s with lastEffect := none, stopRequested := true, isLooping := true }).2) ∨
    (∃ sh nx c ok, a = Act.cleanupSettle ok ∧ s.pc = PC.cleanup sh nx c ∧
        s' = { s with pc := PC.afterCleanup sh nx } ∧
        evs = [Event.cleanupDone c ok]) ∨
    (∃ t o, a = Act.setupSettle o ∧ s.pc = PC.setup t ∧
        s' = { s with pc := PC.afterSetup t o } ∧
        evs = [Event.setupDone t o]) ∨
    (∃ nx, a = Act.microA ∧ s.pc = PC.afterCleanup true nx ∧
        s' = (startLoop s).1 ∧ evs = (startLoop s).2) ∨
    (∃ t, a = Act.microA ∧ s.pc = PC.afterCleanup false (some t) ∧
        s' = { s with pc := PC.setup t } ∧ evs = [Event.setupStart t]) ∨
    (a = Act.microA ∧ s.pc = PC.afterCleanup false none ∧
        s' = (startLoop s).1 ∧ evs = (startLoop s).2) ∨
    (∃ t, a = Act.microA ∧ s.pc = PC.afterSetup t SetupOutcome.retCleanup ∧
        s' = (startLoop { s with currentCleanup := some t }).1 ∧
        evs = (startLoop { s with currentCleanup := some t }).2) ∨
    (∃ t o, a = Act.microA ∧ s.pc = PC.afterSetup t o ∧
        o ≠ SetupOutcome.retCleanup ∧
        s' = (startLoop s).1 ∧ evs = (startLoop s).2) ∨
    (a = Act.finallyA ∧ s.pc = PC.finishing ∧
        (s.stopRequested = true ∨ s.lastEffect ≠ none) ∧
        s' = (startLoop { s with isLooping := true }).1 ∧
        evs = Event.loopExited :: Event.loopStarted ::
          (startLoop { s with isLooping := true }).2) ∨
    (a = Act.finallyA ∧ s.pc = PC.finishing ∧
        s.stopRequested = false ∧ s.lastEffect = none ∧
        s' = { s with isLooping := false, pc := PC.idle } ∧
        evs = [Event.loopExited]) := by
  cases a with
  | runA t =>
      simp only [step] at h
      by_cases hil : s.isLooping = true
      · rw [ensureLoop_of_looping (by simpa using hil)] at h
        simp only [Option.some.injEq, Prod.mk.injEq] at h
        exact Or.inl ⟨t, rfl, hil, h.1.symm, h.2.symm⟩
      · have hil' : s.isLooping = false := by simpa using hil
        rw [ensureLoop_of_idle (by simpa using hil')] at h
        simp only [Option.some.injEq, Prod.mk.injEq] at h
        refine Or.inr (Or.inl ⟨t, rfl, hil', ?_, ?_⟩)
        · rw [← h.1]
        · rw [← h.2]
  | stopA =>
      simp only [step] at h
      by_cases hil : s.isLooping = true
      · rw [ensureLoop_of_looping (by simpa using hil)] at h
        simp only [Option.some.injEq, Prod.mk.injEq] at h
        exact Or.inr (Or.inr (Or.inl ⟨rfl, hil, h.1.symm, h.2.symm⟩))
      · have hil' : s.isLooping = false := by simpa using hil
        rw [ensureLoop_of_idle (by simpa using hil')] at h
        simp only [Option.some.injEq, Prod.mk.injEq] at h
        refine Or.inr (Or.inr (Or.inr (Or.inl ⟨rfl, hil', ?_, ?_⟩)))
        · rw [← h.1]
        · rw [← h.2]
  | cleanupSettle ok =>
      simp only [step] at h
      split at h
      next sh nx c heq =>
        simp only [Option.some.injEq, Prod.mk.injEq] at h
        exact Or.inr (Or.inr (Or.inr (Or.inr (Or.inl
          ⟨sh, nx, c, ok, rfl, heq, h.1.symm, h.2.symm⟩))))
      next => exact absurd h (by simp)
  | setupSettle o =>
      simp only [step] at h
      split at h
      next t heq =>
        simp only [Option.some.injEq, Prod.mk.injEq] at h
        exact Or.inr (Or.inr (Or.inr (Or.inr (Or.inr (Or.inl
          ⟨t, o, rfl, heq, h.1.symm, h.2.symm⟩)))))
      next => exact absurd h (by simp)
  | microA =>
      simp only [step] at h
      split at h
      next sh nx heq =>
        cases sh with
        | true =>
            simp only [if_true] at h
            simp only [Option.some.injEq] at h
            refine Or.inr (Or.inr (Or.inr (Or.inr (Or.inr (Or.inr (Or.inl
              ⟨nx, rfl, heq, ?_, ?_⟩))))))
            · rw [h]
            · rw [h]
        | false =>
            simp only [Bool.false_eq_true, if_false] at h
            cases nx with
            | some t =>
                simp only [Option.some.injEq, Prod.mk.injEq] at h
                exact Or.inr (Or.inr (Or.inr (Or.inr (Or.inr (Or.inr (Or.inr
                  (Or.inl ⟨t, rfl, heq, h.1.symm, h.2.symm⟩)))))))
            | none =>
                simp only [Option.some.injEq] at h
                refine Or.inr (Or.inr (Or.inr (Or.inr (Or.inr (Or.inr (Or.inr
                  (Or.inr (Or.inl ⟨rfl, heq, ?_, ?_⟩))))))))
                · rw [h]
                · rw [h]
      next t o heq =>
        by_cases ho : o = SetupOutcome.retCleanup
        · rw [if_pos ho] at h
          simp only [Option.some.injEq] at h
          subst ho
          refine Or.inr (Or.inr (Or.inr (Or.inr (Or.inr (Or.inr (Or.inr (Or.inr
            (Or.inr (Or.inl ⟨t, rfl, heq, ?_, ?_⟩)))))))))
          · rw [h]
          · rw [h]
        · rw [if_neg ho] at h
          simp only [Option.some.injEq] at h
          refine Or.inr (Or.inr (Or.inr (Or.inr (Or.inr (Or.inr (Or.inr (Or.inr
            (Or.inr (Or.inr (Or.inl ⟨t, o, rfl, heq, ho, ?_, ?_⟩))))))))))
          · rw [h]
          · rw [h]
      next => exact absurd h (by simp)
  | finallyA =>
      simp only [step] at h
      split at h
      next heq =>
        by_cases hw : s.stopRequested = true ∨ s.lastEffect ≠ none
        · rw [if_pos (by simpa using hw)] at h
          rw [ensureLoop_of_idle (by simp)] at h
          simp only [Option.some.injEq, Prod.mk.injEq] at h
          refine Or.inr (Or.inr (Or.inr (Or.inr (Or.inr (Or.inr (Or.inr (Or.inr
            (Or.inr (Or.inr (Or.inr (Or.inl ⟨rfl, heq, hw, ?_, ?_⟩)))))))))))
          · rw [← h.1]
          · rw [← h.2]
        · rw [if_neg (by simpa using hw)] at h
          simp only [Option.some.injEq, Prod.mk.injEq] at h
          push_neg at hw
          refine Or.inr (Or.inr (Or.inr (Or.inr (Or.inr (Or.inr (Or.inr (Or.inr
            (Or.inr (Or.inr (Or.inr (Or.inr
              ⟨rfl, heq, by simpa using hw.1, hw.2, h.1.symm, h.2.symm⟩)))))))))))
      next => exact absurd h (by simp)

/-- Every enabled step preserves the basic invariant. -/
lemma inv_step {s : RState} {a : Act} {s' : RState} {evs : List Event}
    (hI : Inv s) (h : step s a = some (s', evs)) : Inv s' := by
  obtain ⟨h1, h2, h3, h4⟩ := hI
  rcases step_characterize h with
    ⟨t, -, hil, rfl, -⟩ | ⟨t, -, hil, rfl, -⟩ | ⟨-, hil, rfl, -⟩ |
    ⟨-, hil, rfl, -⟩ | ⟨sh, nx, c, ok, -, hpc, rfl, -⟩ |
    ⟨t, o, -, hpc, rfl, -⟩ | ⟨nx, -, hpc, rfl, -⟩ | ⟨t, -, hpc, rfl, -⟩ |
    ⟨-, hpc, rfl, -⟩ | ⟨t, -, hpc, rfl, -⟩ | ⟨t, o, -, hpc, -, rfl, -⟩ |
    ⟨-, hpc, hw, rfl, -⟩ | ⟨-, hpc, hsr, hle, rfl, -⟩
  · -- run while looping: only the flags change
    refine ⟨by simpa using h1, ?_, by simp, by simpa using h4⟩
    intro hpc
    exact absurd (show s.pc = PC.idle by simpa using hpc) (h1.mp hil)
  · exact inv_startLoop (by simp)
  · -- stop while looping
    refine ⟨by simpa using h1, ?_, by simp, by simpa using h4⟩
    intro hpc
    exact absurd (show s.pc = PC.idle by simpa using hpc) (h1.mp hil)
  · exact inv_startLoop (by simp)
  · -- cleanup settles
    refine ⟨by simp [h1, hpc], by simp, by simpa using h3, ?_⟩
    intro _; exact h4 (by simp [hpc, inLoopBody])
  · -- setup settles
    refine ⟨by simp [h1, hpc], by simp, by simpa using h3, ?_⟩
    intro _; exact h4 (by simp [hpc, inLoopBody])
  · exact inv_startLoop (h1.mpr (by simp [hpc]))
  · -- resume after cleanup with a captured task
    refine ⟨by simp [h1, hpc], by simp, by simpa using h3, ?_⟩
    intro _; exact h4 (by simp [hpc, inLoopBody])
  · exact inv_startLoop (h1.mpr (by simp [hpc]))
  · exact inv_startLoop (by simpa using h1.mpr (by simp [hpc]))
  · exact inv_startLoop (h1.mpr (by simp [hpc]))
  · exact inv_startLoop (by simp)
  · -- the finally callback with nothing pending: go idle
    refine ⟨by simp, by simp [hsr, hle], ?_, by simp [inLoopBody]⟩
    intro hne
    simp only [ne_eq] at hne
    simp [hle] at hne

/-- Inversion of one `exec` step. -/
lemma exec_cons {s s' : RState} {a : Act} {as : List Act} {evs : List Event}
    (h : exec s (a :: as) = some (s', evs)) :
    ∃ s₁ e₁ e₂, step s a = some (s₁, e₁) ∧ exec s₁ as = some (s', e₂) ∧
      evs = e₁ ++ e₂ := by
  simp only [exec] at h
  match hs : step s a with
  | none => rw [hs] at h; exact absurd h (by simp)
  | some (s₁, e₁) =>
      simp only [hs] at h
      match he : exec s₁ as with
      | none => rw [he] at h; exact absurd h (by simp)
      | some (s₂, e₂) =>
          simp only [he, Option.some.injEq, Prod.mk.injEq] at h
          exact ⟨s₁, e₁, e₂, rfl, by rw [he, h.1], h.2.symm⟩

/-- Composition of `exec` runs. -/
lemma exec_append {s s₁ s₂ : RState} {as bs : List Act} {e₁ e₂ : List Event}
    (h₁ : exec s as = some (s₁, e₁)) (h₂ : exec s₁ bs = some (s₂, e₂)) :
    exec s (as ++ bs) = some (s₂, e₁ ++ e₂) := by
  induction as generalizing s e₁ with
  | nil => simp only [exec, Option.some.injEq, Prod.mk.injEq] at h₁
           obtain ⟨rfl, rfl⟩ := h₁
           simpa using h₂
  | cons a as ih =>
      obtain ⟨u, f₁, f₂, hu, hrest, rfl⟩ := exec_cons h₁
      have := ih hrest
      simp only [List.cons_append, exec, hu, List.append_eq, this, List.append_assoc]

lemma inv_exec {acts : List Act} :
    ∀ {s s' : RState} {evs : List Event},
      Inv s → exec s acts = some (s', evs) → Inv s' := by
  induction acts with
  | nil =>
      intro s s' evs hI h
      simp only [exec, Option.some.injEq, Prod.mk.injEq] at h
      rw [← h.1]; exact hI
  | cons a as ih =>
      intro s s' evs hI h
      obtain ⟨s₁, e₁, e₂, hs, he, rfl⟩ := exec_cons h
      exact ih (inv_step hI hs) he

lemma inv_init : Inv initState := by decide

/-- Every reachable state satisfies the basic invariant. -/
lemma inv_reach {s : RState} {tr : List Event} (h : Reach s tr) : Inv s := by
  obtain ⟨acts, hacts⟩ := h
  exact inv_exec inv_init hacts

/-- Reachability is closed under further execution. -/
lemma reach_exec {s s' : RState} {tr evs : List Event} {acts : List Act}
    (h : Reach s tr) (he : exec s acts = some (s', evs)) :
    Reach s' (tr ++ evs) := by
  obtain ⟨as, has⟩ := h
  exact ⟨as ++ acts, exec_append has he⟩

/-- Scanning left to right: no event satisfying `bad` occurs before the
first event satisfying `rel` (if `rel` never occurs, no `bad` at all). -/
def untilB (bad rel : Event → Bool) : List Event → Bool
  | [] => true
  | e :: es => rel e || (!bad e && untilB bad rel es)

/-- The list contains an event satisfying `rel`, and no `bad` event occurs
before the first such event. -/
def hitsRel (bad rel : Event → Bool) : List Event → Bool
  | [] => false
  | e :: es => rel e || (!bad e && hitsRel bad rel es)

/-- No event of the list satisfies `bad` or `rel`. -/
def cleanB (bad rel : Event → Bool) (evs : List Event) : Prop :=
  ∀ e ∈ evs, bad e = false ∧ rel e = false

lemma untilB_append_of_clean {bad rel : Event → Bool} {xs : List Event}
    (h : cleanB bad rel xs) (ys : List Event) :
    untilB bad rel (xs ++ ys) = untilB bad rel ys := by
  induction xs with
  | nil => simp
  | cons e es ih =>
      have he := h e (by simp)
      have hrest : cleanB bad rel es := fun x hx => h x (by simp [hx])
      simp [untilB, he.1, he.2, ih hrest]

lemma untilB_append_of_hits {bad rel : Event → Bool} {xs : List Event}
    (h : hitsRel bad rel xs = true) (ys : List Event) :
    untilB bad rel (xs ++ ys) = true := by
  induction xs with
  | nil => simp [hitsRel] at h
  | cons e es ih =>
      simp only [hitsRel, Bool.or_eq_true, Bool.and_eq_true] at h
      rcases h with h | ⟨hb, hrest⟩
      · simp [untilB, h]
      · simp [untilB, hb, ih hrest]

lemma hitsRel_untilB {bad rel : Event → Bool} {xs : List Event}
    (h : hitsRel bad rel xs = true) : untilB bad rel xs = true := by
  induction xs with
  | nil => simp [hitsRel] at h
  | cons e es ih =>
      simp only [hitsRel, Bool.or_eq_true, Bool.and_eq_true] at h
      rcases h with h | ⟨hb, hrest⟩
      · simp [untilB, h]
      · simp [untilB, hb, ih hrest]

/-- Positional reading of `untilB`: for disjoint `bad`/`rel`, any `bad`
occurrence is preceded by a `rel` occurrence. -/
lemma untilB_spec {bad rel : Event → Bool}
    (hdisj : ∀ e, bad e = true → rel e = false) :
    ∀ {evs : List Event}, untilB bad rel evs = true →
      ∀ pre e post, evs = pre ++ e :: post → bad e = true →
        ∃ r ∈ pre, rel r = true := by
  intro evs h pre
  induction pre generalizing evs with
  | nil =>
      intro e post hevs hbad
      subst hevs
      simp only [untilB, List.nil_append, Bool.or_eq_true, Bool.and_eq_true,
        Bool.not_eq_true'] at h
      rcases h with h | ⟨hb, -⟩
      · exact absurd h (by simp [hdisj e hbad])
      · simp [hb] at hbad
  | cons x xs ih =>
      intro e post hevs hbad
      subst hevs
      simp only [untilB, List.cons_append, Bool.or_eq_true, Bool.and_eq_true] at h
      rcases h with h | ⟨-, hrest⟩
      · exact ⟨x, by simp, h⟩
      · obtain ⟨r, hr, hrel⟩ := ih hrest e post rfl hbad
        exact ⟨r, by simp [hr], hrel⟩

/-- Generic "until" principle: if every step from a state satisfying `P`
either stays in `P` emitting neither `bad` nor `rel` events, or emits a
`rel` event with no earlier `bad` event, then along any execution from a
`P`-state no `bad` event precedes the first `rel` event. -/
lemma exec_until (P : RState → Prop) (bad rel : Event → Bool)
    (hstep : ∀ s a s' evs, P s → step s a = some (s', evs) →
      (P s' ∧ cleanB bad rel evs) ∨ hitsRel bad rel evs = true) :
    ∀ {acts : List Act} {s s' : RState} {evs : List Event},
      P s → exec s acts = some (s', evs) → untilB bad rel evs = true := by
  intro acts
  induction acts with
  | nil =>
      intro s s' evs hP h
      simp only [exec, Option.some.injEq, Prod.mk.injEq] at h
      rw [← h.2]; rfl
  | cons a as ih =>
      intro s s' evs hP h
      obtain ⟨s₁, e₁, e₂, hs, he, rfl⟩ := exec_cons h
      rcases hstep s a s₁ e₁ hP hs with ⟨hP₁, hclean⟩ | hhits
      · rw [untilB_append_of_clean hclean]
        exact ih hP₁ he
      · exact untilB_append_of_hits hhits e₂

/-- Generic "never" principle: if every step from a `P`-state either emits
a `trig` event or stays in `P` emitting no `bad` event, then an execution
from a `P`-state that emits no `trig` event emits no `bad` event and ends
in `P`. -/
lemma exec_never (P : RState → Prop) (bad trig : Event → Bool)
    (hstep : ∀ s a s' evs, P s → step s a = some (s', evs) →
      (∃ e ∈ evs, trig e = true) ∨ (P s' ∧ ∀ e ∈ evs, bad e = false)) :
    ∀ {acts : List Act} {s s' : RState} {evs : List Event},
      P s → exec s acts = some (s', evs) → (∀ e ∈ evs, trig e = false) →
        P s' ∧ ∀ e ∈ evs, bad e = false := by
  intro acts
  induction acts with
  | nil =>
      intro s s' evs hP h _
      simp only [exec, Option.some.injEq, Prod.mk.injEq] at h
      rw [← h.1, ← h.2]
      exact ⟨hP, by simp⟩
  | cons a as ih =>
      intro s s' evs hP h htrig
      obtain ⟨s₁, e₁, e₂, hs, he, rfl⟩ := exec_cons h
      rcases hstep s a s₁ e₁ hP hs with ⟨e, hmem, htr⟩ | ⟨hP₁, hbad⟩
      · exact absurd (htrig e (by simp [hmem])) (by simp [htr])
      · have := ih hP₁ he (fun e hmem => htrig e (by simp [hmem]))
        refine ⟨this.1, ?_⟩
        intro e hmem
        rcases List.mem_append.mp hmem with hm | hm
        · exact hbad e hm
        · exact this.2 e hm

/-- Generic trace invariant principle. -/
lemma exec_trace_inv (Q : RState → List Event → Prop)
    (hstep : ∀ s tr a s' evs, Q s tr → step s a = some (s', evs) →
      Q s' (tr ++ evs)) :
    ∀ {acts : List Act} {s s' : RState} {tr evs : List Event},
      Q s tr → exec s acts = some (s', evs) → Q s' (tr ++ evs) := by
  intro acts
  induction acts with
  | nil =>
      intro s s' tr evs hQ h
      simp only [exec, Option.some.injEq, Prod.mk.injEq] at h
      rw [← h.1, ← h.2]; simpa using hQ
  | cons a as ih =>
      intro s s' tr evs hQ h
      obtain ⟨s₁, e₁, e₂, hs, he, rfl⟩ := exec_cons h
      have := ih (hstep s tr a s₁ e₁ hQ hs) he
      simpa [List.append_assoc] using this

/-- Trace invariant specialised to reachability from the fresh runner. -/
lemma reach_trace_inv (Q : RState → List Event → Prop)
    (hinit : Q initState [])
    (hstep : ∀ s tr a s' evs, Q s tr → step s a = some (s', evs) →
      Q s' (tr ++ evs)) :
    ∀ {s : RState} {tr : List Event}, Reach s tr → Q s tr := by
  intro s tr h
  obtain ⟨acts, hacts⟩ := h
  simpa using exec_trace_inv Q hstep hinit hacts

/-- The loop segment emits at most one event: nothing, a cleanup
invocation, or a setup invocation. -/
lemma startLoop_evs (s : RState) :
    (startLoop s).2 = [] ∨ (∃ c, (startLoop s).2 = [Event.cleanupStart c]) ∨
    ∃ t, (startLoop s).2 = [Event.setupStart t] := by
  rcases startLoop_cases s with ⟨_, _, h⟩ | ⟨c, _, _, h⟩ | ⟨_, _, h⟩ |
    ⟨t, _, _, _, h⟩ <;> simp [h]


/-- Number of occurrences of an event in a trace. -/
def countEv (e : Event) : List Event → Nat
  | [] => 0
  | x :: xs => (if x = e then 1 else 0) + countEv e xs

lemma countEv_append (e : Event) (xs ys : List Event) :
    countEv e (xs ++ ys) = countEv e xs + countEv e ys := by
  induction xs with
  | nil => simp [countEv]
  | cons x xs ih => simp [countEv, ih]; omega

/-- C10: in every reachable state the pending task and the pending
shutdown request are mutually exclusive — `lastEffect ≠ null` and
`stopRequested = true` never hold simultaneously, because `run`, `stop`
and the loop's snapshot each write both fields together; hence no loop
snapshot ever observes both at once. -/
theorem claim_c10 {s : RState} {tr : List Event} (h : Reach s tr) :
    ¬(s.lastEffect ≠ none ∧ s.stopRequested = true) := by
  obtain ⟨-, -, h3, -⟩ := inv_reach h
  rintro ⟨hle, hsr⟩
  rw [h3 hle] at hsr
  exact Bool.false_ne_true hsr

theorem claim_c10_witness :
    ¬(({ lastEffect := some 1, stopRequested := false, currentCleanup := none,
         isLooping := true, pc := PC.setup 0 } : RState).lastEffect ≠ none ∧
      ({ lastEffect := some 1, stopRequested := false, currentCleanup := none,
         isLooping := true, pc := PC.setup 0 } : RState).stopRequested = true) :=
  @claim_c10
    { lastEffect := some 1, stopRequested := false, currentCleanup := none,
      isLooping := true, pc := PC.setup 0 }
    [Event.runCall 0, Event.loopStarted, Event.setupStart 0, Event.runCall 1]
    ⟨[Act.runA 0, Act.runA 1], by decide⟩

/-- C3 as stated by the spec: the loop goes idle only when no pending
task, no pending shutdown, and no stored cleanup remain. -/
def ClaimC3Statement : Prop :=
  ∀ s tr, Reach s tr → s.pc = PC.idle →
    s.lastEffect = none ∧ s.stopRequested = false ∧ s.currentCleanup = none

/-- C3 is refuted by the code: after `run(0)` whose setup returns a
cleanup, the loop's top sees no pending work and breaks *before* checking
`currentCleanup`, so the runner idles with the cleanup of task 0 still
stored (it is drained only when the next `run`/`stop` re-enters the
loop). -/
theorem claim_c3_counterexample : ¬ ClaimC3Statement := by
  intro h
  have := h
    { lastEffect := none, stopRequested := false, currentCleanup := some 0,
      isLooping := false, pc := PC.idle }
    [Event.runCall 0, Event.loopStarted, Event.setupStart 0,
     Event.setupDone 0 SetupOutcome.retCleanup, Event.loopExited]
    ⟨[Act.runA 0, Act.setupSettle SetupOutcome.retCleanup, Act.microA,
      Act.finallyA], by decide⟩
    rfl
  exact absurd this.2.2 (by simp)

/-- C3 (amended): the loop goes idle only when neither a pending task nor
a pending shutdown request is present; a stored cleanup, however, may
survive into the idle state (it is drained at the start of the next
servicing, before any subsequent setup). -/
theorem claim_c3_amended {s : RState} {tr : List Event} (h : Reach s tr)
    (hidle : s.pc = PC.idle) :
    s.lastEffect = none ∧ s.stopRequested = false := by
  obtain ⟨-, h2, -, -⟩ := inv_reach h
  exact h2 hidle

theorem claim_c3_amended_witness :
    ({ lastEffect := none, stopRequested := false, currentCleanup := some 0,
       isLooping := false, pc := PC.idle } : RState).lastEffect = none ∧
    ({ lastEffect := none, stopRequested := false, currentCleanup := some 0,
       isLooping := false, pc := PC.idle } : RState).stopRequested = false :=
  @claim_c3_amended
    { lastEffect := none, stopRequested := false, currentCleanup := some 0,
      isLooping := false, pc := PC.idle }
    [Event.runCall 0, Event.loopStarted, Event.setupStart 0,
     Event.setupDone 0 SetupOutcome.retCleanup, Event.loopExited]
    ⟨[Act.runA 0, Act.setupSettle SetupOutcome.retCleanup, Act.microA,
      Act.finallyA], by decide⟩
    rfl

/-- C8: at most one driver-loop instance exists at any time.  In every
reachable state `isLooping` holds exactly when the loop is somewhere in
flight (so `ensureLoop`'s guard never starts a second instance while one
runs), and the trace's `loopStarted` events exceed its `loopExited`
events by exactly one while a loop is alive and by zero when idle — loop
executions strictly alternate start/exit and their bodies never
overlap. -/
theorem claim_c8 {s : RState} {tr : List Event} (h : Reach s tr) :
    (s.isLooping = true ↔ s.pc ≠ PC.idle) ∧
    countEv Event.loopStarted tr =
      countEv Event.loopExited tr + (if s.pc = PC.idle then 0 else 1) := by
  suffices hQ : Inv s ∧ countEv Event.loopStarted tr =
      countEv Event.loopExited tr + (if s.pc = PC.idle then 0 else 1) by
    exact ⟨hQ.1.1, hQ.2⟩
  refine reach_trace_inv
    (fun s tr => Inv s ∧ countEv Event.loopStarted tr =
      countEv Event.loopExited tr + (if s.pc = PC.idle then 0 else 1))
    ⟨inv_init, by simp [initState, countEv]⟩ ?_ h
  rintro s tr a s' evs ⟨hI, hcount⟩ hstep
  refine ⟨inv_step hI hstep, ?_⟩
  obtain ⟨h1, h2, h3, h4⟩ := hI
  rcases step_characterize hstep with
    ⟨t, -, hil, rfl, rfl⟩ | ⟨t, -, hil, rfl, rfl⟩ | ⟨-, hil, rfl, rfl⟩ |
    ⟨-, hil, rfl, rfl⟩ | ⟨sh, nx, c, ok, -, hpc, rfl, rfl⟩ |
    ⟨t, o, -, hpc, rfl, rfl⟩ | ⟨nx, -, hpc, rfl, rfl⟩ |
    ⟨t, -, hpc, rfl, rfl⟩ | ⟨-, hpc, rfl, rfl⟩ | ⟨t, -, hpc, rfl, rfl⟩ |
    ⟨t, o, -, hpc, -, rfl, rfl⟩ | ⟨-, hpc, hw, rfl, rfl⟩ |
    ⟨-, hpc, hsr, hle, rfl, rfl⟩
  · have hne : s.pc ≠ PC.idle := h1.mp hil
    rw [if_neg hne] at hcount
    simp [countEv_append, countEv, hne]
    omega
  · have hpc : s.pc = PC.idle := by
      by_contra hne
      exact absurd (h1.mpr hne) (by simp [hil])
    rw [if_pos hpc] at hcount
    rcases startLoop_evs { s with lastEffect := some t, stopRequested := false, isLooping := true } with he | ⟨c, he⟩ | ⟨u, he⟩ <;>
      · simp [countEv_append, countEv, he, startLoop_pc_ne_idle]
        omega
  · have hne : s.pc ≠ PC.idle := h1.mp hil
    rw [if_neg hne] at hcount
    simp [countEv_append, countEv, hne]
    omega
  · have hpc : s.pc = PC.idle := by
      by_contra hne
      exact absurd (h1.mpr hne) (by simp [hil])
    rw [if_pos hpc] at hcount
    rcases startLoop_evs { s with lastEffect := none, stopRequested := true, isLooping := true } with he | ⟨c, he⟩ | ⟨u, he⟩ <;>
      · simp [countEv_append, countEv, he, startLoop_pc_ne_idle]
        omega
  · rw [if_neg (by simp [hpc])] at hcount
    simp [countEv_append, countEv]
    omega
  · rw [if_neg (by simp [hpc])] at hcount
    simp [countEv_append, countEv]
    omega
  · rw [if_neg (by simp [hpc])] at hcount
    rcases startLoop_evs s with he | ⟨c, he⟩ | ⟨u, he⟩ <;>
      · simp [countEv_append, countEv, he, startLoop_pc_ne_idle]
        omega
  · rw [if_neg (by simp [hpc])] at hcount
    simp [countEv_append, countEv]
    omega
  · rw [if_neg (by simp [hpc])] at hcount
    rcases startLoop_evs s with he | ⟨c, he⟩ | ⟨u, he⟩ <;>
      · simp [countEv_append, countEv, he, startLoop_pc_ne_idle]
        omega
  · rw [if_neg (by simp [hpc])] at hcount
    rcases startLoop_evs { s with currentCleanup := some t } with he | ⟨c, he⟩ | ⟨u, he⟩ <;>
      · simp [countEv_append, countEv, he, startLoop_pc_ne_idle]
        omega
  · rw [if_neg (by simp [hpc])] at hcount
    rcases startLoop_evs s with he | ⟨c, he⟩ | ⟨u, he⟩ <;>
      · simp [countEv_append, countEv, he, startLoop_pc_ne_idle]
        omega
  · rw [if_neg (by simp [hpc])] at hcount
    rcases startLoop_evs { s with isLooping := true } with he | ⟨c, he⟩ | ⟨u, he⟩ <;>
      · simp [countEv_append, countEv, he, startLoop_pc_ne_idle]
        omega
  · rw [if_neg (by simp [hpc])] at hcount
    simp [countEv_append, countEv]
    omega

theorem claim_c8_witness :
    (({ lastEffect := none, stopRequested := false, currentCleanup := some 0,
        isLooping := false, pc := PC.idle } : RState).isLooping = true ↔
      ({ lastEffect := none, stopRequested := false, currentCleanup := some 0,
         isLooping := false, pc := PC.idle } : RState).pc ≠ PC.idle) ∧
    countEv Event.loopStarted
      [Event.runCall 0, Event.loopStarted, Event.setupStart 0,
       Event.setupDone 0 SetupOutcome.retCleanup, Event.loopExited] =
      countEv Event.loopExited
        [Event.runCall 0, Event.loopStarted, Event.setupStart 0,
         Event.setupDone 0 SetupOutcome.retCleanup, Event.loopExited] +
        (if ({ lastEffect := none, stopRequested := false,
               currentCleanup := some 0, isLooping := false,
               pc := PC.idle } : RState).pc = PC.idle then 0 else 1) :=
  @claim_c8
    { lastEffect := none, stopRequested := false, currentCleanup := some 0,
      isLooping := false, pc := PC.idle }
    [Event.runCall 0, Event.loopStarted, Event.setupStart 0,
     Event.setupDone 0 SetupOutcome.retCleanup, Event.loopExited]
    ⟨[Act.runA 0, Act.setupSettle SetupOutcome.retCleanup, Act.microA,
      Act.finallyA], by decide⟩

/-- Event classifier: a setup invocation (of any task). -/
def isSetupStart : Event → Bool
  | Event.setupStart _ => true
  | _ => false

/-- Event classifier: completion (successful or failing) of the cleanup
owned by task `c`. -/
def isCleanupDoneOf (c : Nat) : Event → Bool
  | Event.cleanupDone x _ => x == c
  | _ => false

lemma isCleanupDoneOf_eq {c : Nat} {e : Event}
    (h : isCleanupDoneOf c e = true) : ∃ ok, e = Event.cleanupDone c ok := by
  cases e with
  | cleanupDone x ok =>
      simp only [isCleanupDoneOf, beq_iff_eq] at h
      exact ⟨ok, by rw [h]⟩
  | runCall t => simp [isCleanupDoneOf] at h
  | stopCall => simp [isCleanupDoneOf] at h
  | loopStarted => simp [isCleanupDoneOf] at h
  | loopExited => simp [isCleanupDoneOf] at h
  | cleanupStart c => simp [isCleanupDoneOf] at h
  | setupStart t => simp [isCleanupDoneOf] at h
  | setupDone t o => simp [isCleanupDoneOf] at h

lemma setupStart_not_cleanupDone (c : Nat) :
    ∀ e, isSetupStart e = true → isCleanupDoneOf c e = false := by
  intro e h
  cases e <;> simp [isSetupStart, isCleanupDoneOf] at h ⊢

/-- The runner still owes the completion of the cleanup belonging to task
`c`: either the cleanup is stored and not yet invoked, or it is currently
in flight. -/
def chargedWith (s : RState) (c : Nat) : Prop :=
  s.currentCleanup = some c ∨ ∃ sh nx, s.pc = PC.cleanup sh nx c

/-- Step obligation for C1: from a charged state, each step either stays
charged and emits no setup invocation, or completes the owed cleanup with
no setup invocation before the completion. -/
lemma charged_until_step (c : Nat) :
    ∀ s a s' evs, (Inv s ∧ chargedWith s c) → step s a = some (s', evs) →
      ((Inv s' ∧ chargedWith s' c) ∧
        cleanB isSetupStart (isCleanupDoneOf c) evs) ∨
      hitsRel isSetupStart (isCleanupDoneOf c) evs = true := by
  rintro s a s' evs ⟨hI, hch⟩ hstep
  have hI' := inv_step hI hstep
  obtain ⟨h1, h2, h3, h4⟩ := hI
  rcases step_characterize hstep with
    ⟨t, -, hil, rfl, rfl⟩ | ⟨t, -, hil, rfl, rfl⟩ | ⟨-, hil, rfl, rfl⟩ |
    ⟨-, hil, rfl, rfl⟩ | ⟨sh, nx, c₀, ok, -, hpc, rfl, rfl⟩ |
    ⟨t, o, -, hpc, rfl, rfl⟩ | ⟨nx, -, hpc, rfl, rfl⟩ |
    ⟨t, -, hpc, rfl, rfl⟩ | ⟨-, hpc, rfl, rfl⟩ | ⟨t, -, hpc, rfl, rfl⟩ |
    ⟨t, o, -, hpc, ho, rfl, rfl⟩ | ⟨-, hpc, hw, rfl, rfl⟩ |
    ⟨-, hpc, hsr, hle, rfl, rfl⟩
  · -- run while looping: flags only
    refine Or.inl ⟨⟨hI', ?_⟩, ?_⟩
    · rcases hch with hcc | ⟨sh, nx, hpc⟩
      · exact Or.inl (by simpa using hcc)
      · exact Or.inr ⟨sh, nx, by simpa using hpc⟩
    · rintro e he
      simp only [List.mem_singleton] at he
      simp [he, isSetupStart, isCleanupDoneOf]
  · -- run from idle: the stored cleanup (if charged) is drained first
    have hpcidle : s.pc = PC.idle := by
      by_contra hne
      exact absurd (h1.mpr hne) (by simp [hil])
    have hcc : s.currentCleanup = some c := by
      rcases hch with hcc | ⟨sh, nx, hpc⟩
      · exact hcc
      · rw [hpcidle] at hpc; exact absurd hpc (by simp)
    rcases startLoop_cases { s with lastEffect := some t, stopRequested := false, isLooping := true } with
      ⟨-, hle, -⟩ | ⟨c', hcc', -, heq⟩ | ⟨-, hcc', -⟩ | ⟨u, -, -, hcc', -⟩
    · exact absurd hle (by simp)
    · have hc' : c' = c := by
        simp only [hcc] at hcc'
        exact (Option.some.inj (by simpa using hcc')).symm
      subst hc'
      refine Or.inl ⟨⟨hI', Or.inr ⟨false, some t, ?_⟩⟩, ?_⟩
      · simp [heq]
      · rw [heq]
        rintro e he
        simp only [List.mem_cons, List.mem_singleton, List.not_mem_nil,
          or_false] at he
        rcases he with rfl | rfl | rfl
        · simp [isSetupStart, isCleanupDoneOf]
        · simp [isSetupStart, isCleanupDoneOf]
        · simp [isSetupStart, isCleanupDoneOf]
    · exact absurd hcc' (by simp [hcc])
    · exact absurd hcc' (by simp [hcc])
  · -- stop while looping: flags only
    refine Or.inl ⟨⟨hI', ?_⟩, ?_⟩
    · rcases hch with hcc | ⟨sh, nx, hpc⟩
      · exact Or.inl (by simpa using hcc)
      · exact Or.inr ⟨sh, nx, by simpa using hpc⟩
    · rintro e he
      simp only [List.mem_singleton] at he
      simp [he, isSetupStart, isCleanupDoneOf]
  · -- stop from idle
    have hpcidle : s.pc = PC.idle := by
      by_contra hne
      exact absurd (h1.mpr hne) (by simp [hil])
    have hcc : s.currentCleanup = some c := by
      rcases hch with hcc | ⟨sh, nx, hpc⟩
      · exact hcc
      · rw [hpcidle] at hpc; exact absurd hpc (by simp)
    rcases startLoop_cases { s with lastEffect := none, stopRequested := true, isLooping := true } with
      ⟨hsr, -, -⟩ | ⟨c', hcc', -, heq⟩ | ⟨-, hcc', -⟩ | ⟨u, -, -, hcc', -⟩
    · exact absurd hsr (by simp)
    · have hc' : c' = c := by
        simp only [hcc] at hcc'
        exact (Option.some.inj (by simpa using hcc')).symm
      subst hc'
      refine Or.inl ⟨⟨hI', Or.inr ⟨true, none, ?_⟩⟩, ?_⟩
      · simp [heq]
      · rw [heq]
        rintro e he
        simp only [List.mem_cons, List.mem_singleton, List.not_mem_nil,
          or_false] at he
        rcases he with rfl | rfl | rfl
        · simp [isSetupStart, isCleanupDoneOf]
        · simp [isSetupStart, isCleanupDoneOf]
        · simp [isSetupStart, isCleanupDoneOf]
    · exact absurd hcc' (by simp [hcc])
    · exact absurd hcc' (by simp [hcc])
  · -- the owed cleanup settles: release event
    have hc₀ : c₀ = c := by
      rcases hch with hcc | ⟨sh', nx', hpc'⟩
      · exact absurd (h4 (by simp [hpc, inLoopBody])) (by simp [hcc])
      · rw [hpc] at hpc'
        simp only [PC.cleanup.injEq] at hpc'
        exact hpc'.2.2
    refine Or.inr ?_
    simp [hitsRel, isCleanupDoneOf, hc₀]
  · -- setup settles: impossible while charged
    exfalso
    rcases hch with hcc | ⟨sh', nx', hpc'⟩
    · exact absurd (h4 (by simp [hpc, inLoopBody])) (by simp [hcc])
    · rw [hpc] at hpc'; exact absurd hpc' (by simp)
  · exfalso
    rcases hch with hcc | ⟨sh', nx', hpc'⟩
    · exact absurd (h4 (by simp [hpc, inLoopBody])) (by simp [hcc])
    · rw [hpc] at hpc'; exact absurd hpc' (by simp)
  · exfalso
    rcases hch with hcc | ⟨sh', nx', hpc'⟩
    · exact absurd (h4 (by simp [hpc, inLoopBody])) (by simp [hcc])
    · rw [hpc] at hpc'; exact absurd hpc' (by simp)
  · exfalso
    rcases hch with hcc | ⟨sh', nx', hpc'⟩
    · exact absurd (h4 (by simp [hpc, inLoopBody])) (by simp [hcc])
    · rw [hpc] at hpc'; exact absurd hpc' (by simp)
  · exfalso
    rcases hch with hcc | ⟨sh', nx', hpc'⟩
    · exact absurd (h4 (by simp [hpc, inLoopBody])) (by simp [hcc])
    · rw [hpc] at hpc'; exact absurd hpc' (by simp)
  · exfalso
    rcases hch with hcc | ⟨sh', nx', hpc'⟩
    · exact absurd (h4 (by simp [hpc, inLoopBody])) (by simp [hcc])
    · rw [hpc] at hpc'; exact absurd hpc' (by simp)
  · -- the finally callback restarts the loop: drain happens first
    have hcc : s.currentCleanup = some c := by
      rcases hch with hcc | ⟨sh', nx', hpc'⟩
      · exact hcc
      · rw [hpc] at hpc'; exact absurd hpc' (by simp)
    rcases startLoop_cases { s with isLooping := true } with
      ⟨hsr', hle', -⟩ | ⟨c', hcc', -, heq⟩ | ⟨-, hcc', -⟩ | ⟨u, -, -, hcc', -⟩
    · exfalso
      rcases hw with hw | hw
      · exact absurd hw (by simp [show s.stopRequested = false by simpa using hsr'])
      · exact absurd hw (by simp [show s.lastEffect = none by simpa using hle'])
    · have hc' : c' = c := by
        simp only [hcc] at hcc'
        exact (Option.some.inj (by simpa using hcc')).symm
      subst hc'
      refine Or.inl ⟨⟨hI', Or.inr ⟨s.stopRequested, s.lastEffect, ?_⟩⟩, ?_⟩
      · simp [heq]
      · rw [heq]
        rintro e he
        simp only [List.mem_cons, List.mem_singleton, List.not_mem_nil,
          or_false] at he
        rcases he with rfl | rfl | rfl
        · simp [isSetupStart, isCleanupDoneOf]
        · simp [isSetupStart, isCleanupDoneOf]
        · simp [isSetupStart, isCleanupDoneOf]
    · exact absurd hcc' (by simp [hcc])
    · exact absurd hcc' (by simp [hcc])
  · -- the finally callback idles: the charge survives into idle
    have hcc : s.currentCleanup = some c := by
      rcases hch with hcc | ⟨sh', nx', hpc'⟩
      · exact hcc
      · rw [hpc] at hpc'; exact absurd hpc' (by simp)
    refine Or.inl ⟨⟨hI', Or.inl (by simpa using hcc)⟩, ?_⟩
    rintro e he
    simp only [List.mem_singleton] at he
    simp [he, isSetupStart, isCleanupDoneOf]

/-- C1: once a task's setup has stored a cleanup (or that cleanup is in
flight), the cleanup runs to completion — successfully or not — strictly
before the setup of any subsequently started task begins.  In particular
a task submitted while the cleanup is pending does not start until the
cleanup has resolved. -/
theorem claim_c1 {s : RState} {tr : List Event} {c : Nat} {acts : List Act}
    {s' : RState} {evs : List Event}
    (hr : Reach s tr) (hch : chargedWith s c)
    (hex : exec s acts = some (s', evs))
    {pre post : List Event} {t : Nat}
    (hsplit : evs = pre ++ Event.setupStart t :: post) :
    ∃ ok, Event.cleanupDone c ok ∈ pre := by
  have hu :=
    exec_until (fun s => Inv s ∧ chargedWith s c) isSetupStart
      (isCleanupDoneOf c) (charged_until_step c) ⟨inv_reach hr, hch⟩ hex
  obtain ⟨r, hrmem, hrrel⟩ :=
    untilB_spec (setupStart_not_cleanupDone c) hu pre (Event.setupStart t)
      post hsplit (by simp [isSetupStart])
  obtain ⟨ok, rfl⟩ := isCleanupDoneOf_eq hrrel
  exact ⟨ok, hrmem⟩

theorem claim_c1_witness :
    ∃ ok, Event.cleanupDone 0 ok ∈
      [Event.runCall 1, Event.loopStarted, Event.cleanupStart 0,
       Event.cleanupDone 0 true] :=
  @claim_c1
    { lastEffect := none, stopRequested := false, currentCleanup := some 0,
      isLooping := false, pc := PC.idle }
    [Event.runCall 0, Event.loopStarted, Event.setupStart 0,
     Event.setupDone 0 SetupOutcome.retCleanup, Event.loopExited]
    0
    [Act.runA 1, Act.cleanupSettle true, Act.microA]
    { lastEffect := none, stopRequested := false, currentCleanup := none,
      isLooping := true, pc := PC.setup 1 }
    [Event.runCall 1, Event.loopStarted, Event.cleanupStart 0,
     Event.cleanupDone 0 true, Event.setupStart 1]
    ⟨[Act.runA 0, Act.setupSettle SetupOutcome.retCleanup, Act.microA,
      Act.finallyA], by decide⟩
    (Or.inl rfl)
    (by decide)
    [Event.runCall 1, Event.loopStarted, Event.cleanupStart 0,
     Event.cleanupDone 0 true]
    []
    1
    rfl

/-- Fold step computing the most recent submission still standing: a
`run` call makes its task the latest, a `stop` call discards it. -/
def subUpd (a : Option Nat) (e : Event) : Option Nat :=
  match e with
  | Event.runCall t => some t
  | Event.stopCall => none
  | _ => a

/-- The most recently submitted task of a trace that has not been
superseded by a later `run`/`stop` call. -/
def latestSubmission (tr : List Event) : Option Nat :=
  tr.foldl subUpd none

lemma latestSubmission_append (xs ys : List Event) :
    latestSubmission (xs ++ ys) = ys.foldl subUpd (latestSubmission xs) := by
  simp [latestSubmission, List.foldl_append]

/-- The task captured as the iteration's `next` snapshot, if the loop is
between its snapshot and the end of that iteration's cleanup phase. -/
def nxOf : PC → Option Nat
  | PC.cleanup _ nx _ => nx
  | PC.afterCleanup _ nx => nx
  | _ => none

/-- C2 as stated by the spec: whenever a setup is invoked, its task is at
that moment still the most recently submitted one. -/
def ClaimC2Statement : Prop :=
  ∀ s tr, Reach s tr → ∀ pre t post, tr = pre ++ Event.setupStart t :: post →
    latestSubmission pre = some t

/-- C2 is refuted by the code: the loop captures `next = lastEffect`
*before* awaiting the stored cleanup and trusts that captured value after
the await.  Run task 0 (which stores a cleanup), let it settle, then run
task 1: the loop snapshots `next = 1` and starts draining cleanup 0; while
that cleanup is pending, run task 2.  After the cleanup resolves the loop
starts task 1 anyway, although task 2 is by then the most recently
submitted one — a superseded task's setup executes. -/
theorem claim_c2_counterexample : ¬ ClaimC2Statement := by
  intro h
  have := h
    { lastEffect := some 2, stopRequested := false, currentCleanup := none,
      isLooping := true, pc := PC.setup 1 }
    [Event.runCall 0, Event.loopStarted, Event.setupStart 0,
     Event.setupDone 0 SetupOutcome.retCleanup, Event.loopExited,
     Event.runCall 1, Event.loopStarted, Event.cleanupStart 0,
     Event.runCall 2, Event.cleanupDone 0 true, Event.setupStart 1]
    ⟨[Act.runA 0, Act.setupSettle SetupOutcome.retCleanup, Act.microA,
      Act.finallyA, Act.runA 1, Act.runA 2, Act.cleanupSettle true,
      Act.microA], by decide⟩
    [Event.runCall 0, Event.loopStarted, Event.setupStart 0,
     Event.setupDone 0 SetupOutcome.retCleanup, Event.loopExited,
     Event.runCall 1, Event.loopStarted, Event.cleanupStart 0,
     Event.runCall 2, Event.cleanupDone 0 true]
    1 [] (by decide)
  exact absurd this (by decide)

/-- Helper for C2 (amended), part 1: the pending task recorded in
`lastEffect` is always the most recently submitted one. -/
lemma pending_latest :
    ∀ s tr, Reach s tr → ∀ u, s.lastEffect = some u →
      latestSubmission tr = some u := by
  intro s tr h
  refine reach_trace_inv
    (fun s tr => ∀ u, s.lastEffect = some u → latestSubmission tr = some u)
    (by simp [initState]) ?_ h
  rintro s tr a s' evs hQ hstep
  rcases step_characterize hstep with
    ⟨t, -, hil, rfl, rfl⟩ | ⟨t, -, hil, rfl, rfl⟩ | ⟨-, hil, rfl, rfl⟩ |
    ⟨-, hil, rfl, rfl⟩ | ⟨sh, nx, c, ok, -, hpc, rfl, rfl⟩ |
    ⟨t, o, -, hpc, rfl, rfl⟩ | ⟨nx, -, hpc, rfl, rfl⟩ |
    ⟨t, -, hpc, rfl, rfl⟩ | ⟨-, hpc, rfl, rfl⟩ | ⟨t, -, hpc, rfl, rfl⟩ |
    ⟨t, o, -, hpc, -, rfl, rfl⟩ | ⟨-, hpc, hw, rfl, rfl⟩ |
    ⟨-, hpc, hsr, hle, rfl, rfl⟩
  · intro u hu
    simp only at hu
    have : t = u := by simpa using hu
    subst this
    simp [latestSubmission_append, List.foldl, subUpd]
  · intro u hu
    exact absurd ((startLoop_flags _).1 ▸ hu) (by simp)
  · intro u hu
    exact absurd hu (by simp)
  · intro u hu
    exact absurd ((startLoop_flags _).1 ▸ hu) (by simp)
  · intro u hu
    simp only at hu
    simp [latestSubmission_append, List.foldl, subUpd, hQ u hu]
  · intro u hu
    simp only at hu
    simp [latestSubmission_append, List.foldl, subUpd, hQ u hu]
  · intro u hu
    exact absurd ((startLoop_flags _).1 ▸ hu) (by simp)
  · intro u hu
    simp only at hu
    simp [latestSubmission_append, List.foldl, subUpd, hQ u hu]
  · intro u hu
    exact absurd ((startLoop_flags _).1 ▸ hu) (by simp)
  · intro u hu
    exact absurd ((startLoop_flags _).1 ▸ hu) (by simp)
  · intro u hu
    exact absurd ((startLoop_flags _).1 ▸ hu) (by simp)
  · intro u hu
    exact absurd ((startLoop_flags _).1 ▸ hu) (by simp)
  · intro u hu
    simp only at hu
    rw [hle] at hu
    exact absurd hu (by simp)

/-- Helper for C2 (amended), part 2: a setup invocation of task `t` can
originate only from the `run(t)` call itself, from `t` being the pending
task at a snapshot taken in the same atomic segment, or from `t` having
been captured as the iteration's `next` before the cleanup await. -/
lemma setup_origin :
    ∀ s a s' evs t, step s a = some (s', evs) → Event.setupStart t ∈ evs →
      a = Act.runA t ∨ s.lastEffect = some t ∨
        ∃ sh, s.pc = PC.afterCleanup sh (some t) := by
  rintro s a s' evs t hstep hmem
  rcases step_characterize hstep with
    ⟨t', -, hil, rfl, rfl⟩ | ⟨t', ha, hil, rfl, rfl⟩ | ⟨-, hil, rfl, rfl⟩ |
    ⟨-, hil, rfl, rfl⟩ | ⟨sh, nx, c, ok, -, hpc, rfl, rfl⟩ |
    ⟨t', o, -, hpc, rfl, rfl⟩ | ⟨nx, -, hpc, rfl, rfl⟩ |
    ⟨t', -, hpc, rfl, rfl⟩ | ⟨-, hpc, rfl, rfl⟩ | ⟨t', -, hpc, rfl, rfl⟩ |
    ⟨t', o, -, hpc, -, rfl, rfl⟩ | ⟨-, hpc, hw, rfl, rfl⟩ |
    ⟨-, hpc, hsr, hle, rfl, rfl⟩
  · simp at hmem
  · rcases startLoop_cases { s with lastEffect := some t', stopRequested := false, isLooping := true } with
      ⟨-, -, heq⟩ | ⟨c, -, -, heq⟩ | ⟨-, -, heq⟩ | ⟨t₀, -, hle', -, heq⟩
    · simp [heq] at hmem
    · simp [heq] at hmem
    · simp [heq] at hmem
    · have ht₀ : t₀ = t' := by simpa using hle'.symm
      simp only [heq, List.mem_cons] at hmem
      rcases hmem with h | h | h | h
      · exact absurd h (by simp)
      · exact absurd h (by simp)
      · have hts : t = t₀ := by simpa using h
        rw [hts, ht₀]
        exact Or.inl ha
      · simp at h
  · simp at hmem
  · rcases startLoop_cases { s with lastEffect := none, stopRequested := true, isLooping := true } with
      ⟨-, -, heq⟩ | ⟨c, -, -, heq⟩ | ⟨-, -, heq⟩ | ⟨t₀, -, hle', -, heq⟩
    · simp [heq] at hmem
    · simp [heq] at hmem
    · simp [heq] at hmem
    · exact absurd hle' (by simp)
  · simp at hmem
  · simp at hmem
  · rcases startLoop_cases s with
      ⟨-, -, heq⟩ | ⟨c, -, -, heq⟩ | ⟨-, -, heq⟩ | ⟨t₀, -, hle', -, heq⟩
    · simp [heq] at hmem
    · simp [heq] at hmem
    · simp [heq] at hmem
    · have : t = t₀ := by simpa using (by simpa [heq] using hmem : Event.setupStart t ∈ [Event.setupStart t₀])
      subst this
      exact Or.inr (Or.inl hle')
  · have : t = t' := by simpa using hmem
    subst this
    exact Or.inr (Or.inr ⟨false, hpc⟩)
  · rcases startLoop_cases s with
      ⟨-, -, heq⟩ | ⟨c, -, -, heq⟩ | ⟨-, -, heq⟩ | ⟨t₀, -, hle', -, heq⟩
    · simp [heq] at hmem
    · simp [heq] at hmem
    · simp [heq] at hmem
    · have : t = t₀ := by simpa using (by simpa [heq] using hmem : Event.setupStart t ∈ [Event.setupStart t₀])
      subst this
      exact Or.inr (Or.inl hle')
  · rcases startLoop_cases { s with currentCleanup := some t' } with
      ⟨-, -, heq⟩ | ⟨c, -, -, heq⟩ | ⟨-, -, heq⟩ | ⟨t₀, -, hle', -, heq⟩
    · simp [heq] at hmem
    · simp [heq] at hmem
    · simp [heq] at hmem
    · have : t = t₀ := by simpa using (by simpa [heq] using hmem : Event.setupStart t ∈ [Event.setupStart t₀])
      subst this
      exact Or.inr (Or.inl (by simpa using hle'))
  · rcases startLoop_cases s with
      ⟨-, -, heq⟩ | ⟨c, -, -, heq⟩ | ⟨-, -, heq⟩ | ⟨t₀, -, hle', -, heq⟩
    · simp [heq] at hmem
    · simp [heq] at hmem
    · simp [heq] at hmem
    · have : t = t₀ := by simpa using (by simpa [heq] using hmem : Event.setupStart t ∈ [Event.setupStart t₀])
      subst this
      exact Or.inr (Or.inl hle')
  · rcases startLoop_cases { s with isLooping := true } with
      ⟨-, -, heq⟩ | ⟨c, -, -, heq⟩ | ⟨-, -, heq⟩ | ⟨t₀, -, hle', -, heq⟩
    · simp [heq] at hmem
    · simp [heq] at hmem
    · simp [heq] at hmem
    · simp only [heq, List.mem_cons] at hmem
      rcases hmem with h | h | h | h
      · exact absurd h (by simp)
      · exact absurd h (by simp)
      · have : t = t₀ := by simpa using h
        subst this
        exact Or.inr (Or.inl (by simpa using hle'))
      · simp at h
  · simp at hmem

/-- Helper for C2 (amended), part 3: a task id enters the `next` capture
of an iteration only from the `run` call's argument or from the pending
`lastEffect` at the moment of the snapshot. -/
lemma capture_origin :
    ∀ s a s' evs t, step s a = some (s', evs) → nxOf s'.pc = some t →
      nxOf s.pc = some t ∨ a = Act.runA t ∨ s.lastEffect = some t := by
  rintro s a s' evs t hstep hnx
  rcases step_characterize hstep with
    ⟨t', -, hil, rfl, rfl⟩ | ⟨t', ha, hil, rfl, rfl⟩ | ⟨-, hil, rfl, rfl⟩ |
    ⟨-, hil, rfl, rfl⟩ | ⟨sh, nx, c, ok, -, hpc, rfl, rfl⟩ |
    ⟨t', o, -, hpc, rfl, rfl⟩ | ⟨nx, -, hpc, rfl, rfl⟩ |
    ⟨t', -, hpc, rfl, rfl⟩ | ⟨-, hpc, rfl, rfl⟩ | ⟨t', -, hpc, rfl, rfl⟩ |
    ⟨t', o, -, hpc, -, rfl, rfl⟩ | ⟨-, hpc, hw, rfl, rfl⟩ |
    ⟨-, hpc, hsr, hle, rfl, rfl⟩
  · exact Or.inl (by simpa using hnx)
  · rcases startLoop_cases { s with lastEffect := some t', stopRequested := false, isLooping := true } with
      ⟨-, -, heq⟩ | ⟨c, -, -, heq⟩ | ⟨-, -, heq⟩ | ⟨t₀, -, -, -, heq⟩
    · simp [heq, nxOf] at hnx
    · have : t' = t := by simpa [heq, nxOf] using hnx
      subst this
      exact Or.inr (Or.inl ha)
    · simp [heq, nxOf] at hnx
    · simp [heq, nxOf] at hnx
  · exact Or.inl (by simpa using hnx)
  · rcases startLoop_cases { s with lastEffect := none, stopRequested := true, isLooping := true } with
      ⟨-, -, heq⟩ | ⟨c, -, -, heq⟩ | ⟨-, -, heq⟩ | ⟨t₀, -, hle', -, heq⟩
    · simp [heq, nxOf] at hnx
    · simp [heq, nxOf] at hnx
    · simp [heq, nxOf] at hnx
    · exact absurd hle' (by simp)
  · exact Or.inl (by simp [hpc, nxOf]; simpa [nxOf] using hnx)
  · exact absurd hnx (by simp [nxOf])
  · rcases startLoop_cases s with
      ⟨-, -, heq⟩ | ⟨c, -, -, heq⟩ | ⟨-, -, heq⟩ | ⟨t₀, -, -, -, heq⟩
    · simp [heq, nxOf] at hnx
    · exact Or.inr (Or.inr (by simpa [heq, nxOf] using hnx))
    · simp [heq, nxOf] at hnx
    · simp [heq, nxOf] at hnx
  · exact absurd hnx (by simp [nxOf])
  · rcases startLoop_cases s with
      ⟨-, -, heq⟩ | ⟨c, -, -, heq⟩ | ⟨-, -, heq⟩ | ⟨t₀, -, -, -, heq⟩
    · simp [heq, nxOf] at hnx
    · exact Or.inr (Or.inr (by simpa [heq, nxOf] using hnx))
    · simp [heq, nxOf] at hnx
    · simp [heq, nxOf] at hnx
  · rcases startLoop_cases { s with currentCleanup := some t' } with
      ⟨-, -, heq⟩ | ⟨c, -, -, heq⟩ | ⟨-, -, heq⟩ | ⟨t₀, -, -, -, heq⟩
    · simp [heq, nxOf] at hnx
    · exact Or.inr (Or.inr (by simpa [heq, nxOf] using hnx))
    · simp [heq, nxOf] at hnx
    · simp [heq, nxOf] at hnx
  · rcases startLoop_cases s with
      ⟨-, -, heq⟩ | ⟨c, -, -, heq⟩ | ⟨-, -, heq⟩ | ⟨t₀, -, -, -, heq⟩
    · simp [heq, nxOf] at hnx
    · exact Or.inr (Or.inr (by simpa [heq, nxOf] using hnx))
    · simp [heq, nxOf] at hnx
    · simp [heq, nxOf] at hnx
  · rcases startLoop_cases { s with isLooping := true } with
      ⟨-, -, heq⟩ | ⟨c, -, -, heq⟩ | ⟨-, -, heq⟩ | ⟨t₀, -, -, -, heq⟩
    · simp [heq, nxOf] at hnx
    · exact Or.inr (Or.inr (by simpa [heq, nxOf] using hnx))
    · simp [heq, nxOf] at hnx
    · simp [heq, nxOf] at hnx
  · exact absurd hnx (by simp [nxOf])

/-- C2 (amended): a task's setup is invoked only if it was the most
recently submitted task at the moment it was *captured* by the loop:
(1) the pending `lastEffect` is always the most recently submitted task,
(2) every setup invocation of `t` originates from `run(t)` itself, from
`t` pending at the snapshot, or from `t` having been captured as the
iteration's `next` before the cleanup await, and (3) every such capture
takes the `run` argument or the then-pending task.  The claim as
originally stated fails only in the cleanup-await window: the loop does
NOT re-read the pending task after the cleanup await, so a `run` arriving
during that await does not prevent the already-captured task from
starting (the newer task runs afterwards). -/
theorem claim_c2_amended :
    (∀ s tr, Reach s tr → ∀ u, s.lastEffect = some u →
      latestSubmission tr = some u) ∧
    (∀ s a s' evs t, step s a = some (s', evs) →
      Event.setupStart t ∈ evs →
      a = Act.runA t ∨ s.lastEffect = some t ∨
        ∃ sh, s.pc = PC.afterCleanup sh (some t)) ∧
    (∀ s a s' evs t, step s a = some (s', evs) → nxOf s'.pc = some t →
      nxOf s.pc = some t ∨ a = Act.runA t ∨ s.lastEffect = some t) :=
  ⟨pending_latest, setup_origin, capture_origin⟩

theorem claim_c2_amended_witness :
    latestSubmission [Event.runCall 0, Event.loopStarted,
      Event.setupStart 0, Event.runCall 1] = some 1 :=
  claim_c2_amended.1
    { lastEffect := some 1, stopRequested := false, currentCleanup := none,
      isLooping := true, pc := PC.setup 0 }
    [Event.runCall 0, Event.loopStarted, Event.setupStart 0, Event.runCall 1]
    ⟨[Act.runA 0, Act.runA 1], by decide⟩
    1 rfl

/-- C4 as stated by the spec: `run` records the task, clears a pending
shutdown, ensures the loop runs, and returns without invoking any task or
cleanup code. -/
def ClaimC4Statement : Prop :=
  ∀ s tr t s' evs, Reach s tr → step s (Act.runA t) = some (s', evs) →
    (∀ c, Event.cleanupStart c ∉ evs) ∧ ∀ u, Event.setupStart u ∉ evs

/-- C4 is refuted by the code: calling `run` on an idle runner invokes
`loop()` inside `ensureLoop`, and a JavaScript async function body
executes synchronously up to its first `await` — so `run` itself
synchronously begins the stored cleanup (here: cleanup 0) or the task's
setup before returning. -/
theorem claim_c4_counterexample : ¬ ClaimC4Statement := by
  intro h
  have := (h
    { lastEffect := none, stopRequested := false, currentCleanup := some 0,
      isLooping := false, pc := PC.idle }
    [Event.runCall 0, Event.loopStarted, Event.setupStart 0,
     Event.setupDone 0 SetupOutcome.retCleanup, Event.loopExited]
    1
    { lastEffect := none, stopRequested := false, currentCleanup := none,
      isLooping := true, pc := PC.cleanup false (some 1) 0 }
    [Event.runCall 1, Event.loopStarted, Event.cleanupStart 0]
    ⟨[Act.runA 0, Act.setupSettle SetupOutcome.retCleanup, Act.microA,
      Act.finallyA], by decide⟩
    (by decide)).1 0
  exact this (by decide)

/-- C4 (amended): `run(task)` clears any outstanding shutdown request,
leaves the loop running, raises nothing, and never awaits a completion
(no settlement event occurs inside the call).  If the loop was already
running it only records the task as pending; if the runner was idle the
loop starts synchronously inside the call and may invoke the stored
cleanup or the task's setup before `run` returns. -/
theorem claim_c4_amended :
    ∀ s t s' evs, step s (Act.runA t) = some (s', evs) →
      s'.stopRequested = false ∧ s'.isLooping = true ∧
      (s.isLooping = true → s'.lastEffect = some t ∧
        evs = [Event.runCall t]) ∧
      (∀ c ok, Event.cleanupDone c ok ∉ evs) ∧
      (∀ u o, Event.setupDone u o ∉ evs) := by
  rintro s t s' evs hstep
  rcases step_characterize hstep with
    ⟨t₁, ha, hil, rfl, rfl⟩ | ⟨t₁, ha, hil, rfl, rfl⟩ | ⟨ha, -, -, -⟩ |
    ⟨ha, -, -, -⟩ | ⟨sh, nx, c, ok, ha, -, -, -⟩ | ⟨u, o, ha, -, -, -⟩ |
    ⟨nx, ha, -, -, -⟩ | ⟨u, ha, -, -, -⟩ | ⟨ha, -, -, -⟩ |
    ⟨u, ha, -, -, -⟩ | ⟨u, o, ha, -, -, -, -⟩ | ⟨ha, -, -, -, -⟩ |
    ⟨ha, -, -, -, -, -⟩
  · have ht : t = t₁ := by simpa using ha
    subst ht
    refine ⟨by simp, by simpa using hil, ?_, by simp, by simp⟩
    intro _
    exact ⟨by simp, rfl⟩
  · have ht : t = t₁ := by simpa using ha
    subst ht
    refine ⟨(startLoop_flags _).2, ?_, ?_, ?_, ?_⟩
    · rw [startLoop_isLooping]
    · intro h; exact absurd h (by simp [hil])
    · rcases startLoop_evs { s with lastEffect := some t, stopRequested := false, isLooping := true } with he | ⟨c, he⟩ | ⟨u, he⟩ <;>
        simp [he]
    · rcases startLoop_evs { s with lastEffect := some t, stopRequested := false, isLooping := true } with he | ⟨c, he⟩ | ⟨u, he⟩ <;>
        simp [he]
  · exact absurd ha (by simp)
  · exact absurd ha (by simp)
  · exact absurd ha (by simp)
  · exact absurd ha (by simp)
  · exact absurd ha (by simp)
  · exact absurd ha (by simp)
  · exact absurd ha (by simp)
  · exact absurd ha (by simp)
  · exact absurd ha (by simp)
  · exact absurd ha (by simp)
  · exact absurd ha (by simp)

theorem claim_c4_amended_witness :
    ({ lastEffect := none, stopRequested := false, currentCleanup := none,
       isLooping := true, pc := PC.setup 0 } : RState).stopRequested = false ∧
    ({ lastEffect := none, stopRequested := false, currentCleanup := none,
       isLooping := true, pc := PC.setup 0 } : RState).isLooping = true ∧
    (initState.isLooping = true →
      ({ lastEffect := none, stopRequested := false, currentCleanup := none,
         isLooping := true, pc := PC.setup 0 } : RState).lastEffect = some 0 ∧
      [Event.runCall 0, Event.loopStarted, Event.setupStart 0] =
        [Event.runCall 0]) ∧
    (∀ c ok, Event.cleanupDone c ok ∉
      [Event.runCall 0, Event.loopStarted, Event.setupStart 0]) ∧
    (∀ u o, Event.setupDone u o ∉
      [Event.runCall 0, Event.loopStarted, Event.setupStart 0]) :=
  claim_c4_amended initState 0
    { lastEffect := none, stopRequested := false, currentCleanup := none,
      isLooping := true, pc := PC.setup 0 }
    [Event.runCall 0, Event.loopStarted, Event.setupStart 0]
    (by decide)

/-- Event classifier: invocation of the cleanup owned by task `c`. -/
def isCleanupStartOf (c : Nat) (e : Event) : Bool :=
  e == Event.cleanupStart c

/-- Event classifier: task `t`'s setup completed returning a cleanup. -/
def isSetupRetOf (t : Nat) (e : Event) : Bool :=
  e == Event.setupDone t SetupOutcome.retCleanup

/-- No cleanup obligation for task `c` exists anywhere in the state: not
stored, not in flight, and no setup of `c` is about to store one. -/
def uncharged (s : RState) (c : Nat) : Prop :=
  s.currentCleanup ≠ some c ∧ (∀ sh nx, s.pc ≠ PC.cleanup sh nx c) ∧
  s.pc ≠ PC.afterSetup c SetupOutcome.retCleanup

/-- Step obligation: from an uncharged state, the only way a cleanup of
`c` can ever be invoked again is for a setup of `c` to first complete
returning a new cleanup. -/
lemma uncharged_step (c : Nat) :
    ∀ s a s' evs, uncharged s c → step s a = some (s', evs) →
      (∃ e ∈ evs, isSetupRetOf c e = true) ∨
      (uncharged s' c ∧ ∀ e ∈ evs, isCleanupStartOf c e = false) := by
  rintro s a s' evs ⟨hP1, hP2, hP3⟩ hstep
  rcases step_characterize hstep with
    ⟨t, -, hil, rfl, rfl⟩ | ⟨t, -, hil, rfl, rfl⟩ | ⟨-, hil, rfl, rfl⟩ |
    ⟨-, hil, rfl, rfl⟩ | ⟨sh, nx, c₀, ok, -, hpc, rfl, rfl⟩ |
    ⟨t, o, -, hpc, rfl, rfl⟩ | ⟨nx, -, hpc, rfl, rfl⟩ |
    ⟨t, -, hpc, rfl, rfl⟩ | ⟨-, hpc, rfl, rfl⟩ | ⟨t, -, hpc, rfl, rfl⟩ |
    ⟨t, o, -, hpc, ho, rfl, rfl⟩ | ⟨-, hpc, hw, rfl, rfl⟩ |
    ⟨-, hpc, hsr, hle, rfl, rfl⟩
  · refine Or.inr ⟨⟨by simpa using hP1, by simpa using hP2, by simpa using hP3⟩, ?_⟩
    rintro e he
    simp only [List.mem_singleton] at he
    simp [he, isCleanupStartOf]
  · refine Or.inr ?_
    rcases startLoop_cases { s with lastEffect := some t, stopRequested := false, isLooping := true } with
      ⟨-, -, heq⟩ | ⟨c', hcc', -, heq⟩ | ⟨-, -, heq⟩ | ⟨t₀, -, -, -, heq⟩
    · refine ⟨⟨by simp [heq, hP1], by simp [heq], by simp [heq]⟩, ?_⟩
      rintro e he
      simp only [heq, List.mem_cons, List.mem_singleton, List.not_mem_nil,
        or_false] at he
      rcases he with rfl | rfl <;> simp [isCleanupStartOf]
    · have hc' : c' ≠ c := by
        intro hcc
        subst hcc
        exact hP1 (by simpa using hcc')
      refine ⟨⟨by simp [heq], by simp [heq, hc'], by simp [heq]⟩, ?_⟩
      rintro e he
      simp only [heq, List.mem_cons, List.mem_singleton, List.not_mem_nil,
        or_false] at he
      rcases he with rfl | rfl | rfl <;> simp [isCleanupStartOf, hc']
    · refine ⟨⟨by simp [heq, hP1], by simp [heq], by simp [heq]⟩, ?_⟩
      rintro e he
      simp only [heq, List.mem_cons, List.mem_singleton, List.not_mem_nil,
        or_false] at he
      rcases he with rfl | rfl <;> simp [isCleanupStartOf]
    · refine ⟨⟨by simp [heq, hP1], by simp [heq], by simp [heq]⟩, ?_⟩
      rintro e he
      simp only [heq, List.mem_cons, List.mem_singleton, List.not_mem_nil,
        or_false] at he
      rcases he with rfl | rfl | rfl <;> simp [isCleanupStartOf]
  · refine Or.inr ⟨⟨by simpa using hP1, by simpa using hP2, by simpa using hP3⟩, ?_⟩
    rintro e he
    simp only [List.mem_singleton] at he
    simp [he, isCleanupStartOf]
  · refine Or.inr ?_
    rcases startLoop_cases { s with lastEffect := none, stopRequested := true, isLooping := true } with
      ⟨-, -, heq⟩ | ⟨c', hcc', -, heq⟩ | ⟨-, -, heq⟩ | ⟨t₀, -, -, -, heq⟩
    · refine ⟨⟨by simp [heq, hP1], by simp [heq], by simp [heq]⟩, ?_⟩
      rintro e he
      simp only [heq, List.mem_cons, List.mem_singleton, List.not_mem_nil,
        or_false] at he
      rcases he with rfl | rfl <;> simp [isCleanupStartOf]
    · have hc' : c' ≠ c := by
        intro hcc
        subst hcc
        exact hP1 (by simpa using hcc')
      refine ⟨⟨by simp [heq], by simp [heq, hc'], by simp [heq]⟩, ?_⟩
      rintro e he
      simp only [heq, List.mem_cons, List.mem_singleton, List.not_mem_nil,
        or_false] at he
      rcases he with rfl | rfl | rfl <;> simp [isCleanupStartOf, hc']
    · refine ⟨⟨by simp [heq, hP1], by simp [heq], by simp [heq]⟩, ?_⟩
      rintro e he
      simp only [heq, List.mem_cons, List.mem_singleton, List.not_mem_nil,
        or_false] at he
      rcases he with rfl | rfl <;> simp [isCleanupStartOf]
    · refine ⟨⟨by simp [heq, hP1], by simp [heq], by simp [heq]⟩, ?_⟩
      rintro e he
      simp only [heq, List.mem_cons, List.mem_singleton, List.not_mem_nil,
        or_false] at he
      rcases he with rfl | rfl | rfl <;> simp [isCleanupStartOf]
  · have hc₀ : c₀ ≠ c := by
      intro hcc
      subst hcc
      exact hP2 sh nx hpc
    refine Or.inr ⟨⟨by simpa using hP1, by simp, by simp⟩, ?_⟩
    rintro e he
    simp only [List.mem_singleton] at he
    simp [he, isCleanupStartOf]
  · by_cases hco : t = c ∧ o = SetupOutcome.retCleanup
    · refine Or.inl ⟨Event.setupDone t o, by simp, ?_⟩
      simp [isSetupRetOf, hco.1, hco.2]
    · refine Or.inr ⟨⟨by simpa using hP1, by simp, ?_⟩, ?_⟩
      · simp only [ne_eq, PC.afterSetup.injEq, not_and]
        intro h1 h2
        exact hco ⟨h1, h2⟩
      · rintro e he
        simp only [List.mem_singleton] at he
        simp [he, isCleanupStartOf]
  · refine Or.inr ?_
    rcases startLoop_cases s with
      ⟨-, -, heq⟩ | ⟨c', hcc', -, heq⟩ | ⟨-, -, heq⟩ | ⟨t₀, -, -, -, heq⟩
    · exact ⟨⟨by simp [heq, hP1], by simp [heq], by simp [heq]⟩, by simp [heq, cleanB]⟩
    · have hc' : c' ≠ c := by
        intro hcc
        subst hcc
        exact hP1 hcc'
      refine ⟨⟨by simp [heq], by simp [heq, hc'], by simp [heq]⟩, ?_⟩
      rintro e he
      simp only [heq, List.mem_singleton] at he
      simp [he, isCleanupStartOf, hc']
    · exact ⟨⟨by simp [heq, hP1], by simp [heq], by simp [heq]⟩, by simp [heq]⟩
    · refine ⟨⟨by simp [heq, hP1], by simp [heq], by simp [heq]⟩, ?_⟩
      rintro e he
      simp only [heq, List.mem_singleton] at he
      simp [he, isCleanupStartOf]
  · refine Or.inr ⟨⟨by simpa using hP1, by simp, by simp⟩, ?_⟩
    rintro e he
    simp only [List.mem_singleton] at he
    simp [he, isCleanupStartOf]
  · refine Or.inr ?_
    rcases startLoop_cases s with
      ⟨-, -, heq⟩ | ⟨c', hcc', -, heq⟩ | ⟨-, -, heq⟩ | ⟨t₀, -, -, -, heq⟩
    · exact ⟨⟨by simp [heq, hP1], by simp [heq], by simp [heq]⟩, by simp [heq]⟩
    · have hc' : c' ≠ c := by
        intro hcc
        subst hcc
        exact hP1 hcc'
      refine ⟨⟨by simp [heq], by simp [heq, hc'], by simp [heq]⟩, ?_⟩
      rintro e he
      simp only [heq, List.mem_singleton] at he
      simp [he, isCleanupStartOf, hc']
    · exact ⟨⟨by simp [heq, hP1], by simp [heq], by simp [heq]⟩, by simp [heq]⟩
    · refine ⟨⟨by simp [heq, hP1], by simp [heq], by simp [heq]⟩, ?_⟩
      rintro e he
      simp only [heq, List.mem_singleton] at he
      simp [he, isCleanupStartOf]
  · have ht : t ≠ c := by
      intro h
      subst h
      exact hP3 hpc
    refine Or.inr ?_
    rcases startLoop_cases { s with currentCleanup := some t } with
      ⟨-, -, heq⟩ | ⟨c', hcc', -, heq⟩ | ⟨-, hcc3, heq⟩ | ⟨t₀, -, -, hcc4, heq⟩
    · refine ⟨⟨?_, by simp [heq], by simp [heq]⟩, by simp [heq]⟩
      simp only [heq]
      simpa using (Option.some_injective Nat).ne_iff.mpr ht
    · have hc' : c' ≠ c := by
        have htc : t = c' := by simpa using hcc'
        intro hcc
        exact ht (htc.trans hcc)
      refine ⟨⟨by simp [heq], by simp [heq, hc'], by simp [heq]⟩, ?_⟩
      rintro e he
      simp only [heq, List.mem_singleton] at he
      simp [he, isCleanupStartOf, hc']
    · exact absurd (by simpa using hcc3 : (some t : Option Nat) = none) (by simp)
    · exact absurd (by simpa using hcc4 : (some t : Option Nat) = none) (by simp)
  · refine Or.inr ?_
    rcases startLoop_cases s with
      ⟨-, -, heq⟩ | ⟨c', hcc', -, heq⟩ | ⟨-, -, heq⟩ | ⟨t₀, -, -, -, heq⟩
    · exact ⟨⟨by simp [heq, hP1], by simp [heq], by simp [heq]⟩, by simp [heq]⟩
    · have hc' : c' ≠ c := by
        intro hcc
        subst hcc
        exact hP1 hcc'
      refine ⟨⟨by simp [heq], by simp [heq, hc'], by simp [heq]⟩, ?_⟩
      rintro e he
      simp only [heq, List.mem_singleton] at he
      simp [he, isCleanupStartOf, hc']
    · exact ⟨⟨by simp [heq, hP1], by simp [heq], by simp [heq]⟩, by simp [heq]⟩
    · refine ⟨⟨by simp [heq, hP1], by simp [heq], by simp [heq]⟩, ?_⟩
      rintro e he
      simp only [heq, List.mem_singleton] at he
      simp [he, isCleanupStartOf]
  · refine Or.inr ?_
    rcases startLoop_cases { s with isLooping := true } with
      ⟨-, -, heq⟩ | ⟨c', hcc', -, heq⟩ | ⟨-, -, heq⟩ | ⟨t₀, -, -, -, heq⟩
    · refine ⟨⟨by simp [heq, hP1], by simp [heq], by simp [heq]⟩, ?_⟩
      rintro e he
      simp only [heq, List.mem_cons, List.mem_singleton, List.not_mem_nil,
        or_false] at he
      rcases he with rfl | rfl <;> simp [isCleanupStartOf]
    · have hc' : c' ≠ c := by
        intro hcc
        subst hcc
        exact hP1 (by simpa using hcc')
      refine ⟨⟨by simp [heq], by simp [heq, hc'], by simp [heq]⟩, ?_⟩
      rintro e he
      simp only [heq, List.mem_cons, List.mem_singleton, List.not_mem_nil,
        or_false] at he
      rcases he with rfl | rfl | rfl <;> simp [isCleanupStartOf, hc']
    · refine ⟨⟨by simp [heq, hP1], by simp [heq], by simp [heq]⟩, ?_⟩
      rintro e he
      simp only [heq, List.mem_cons, List.mem_singleton, List.not_mem_nil,
        or_false] at he
      rcases he with rfl | rfl <;> simp [isCleanupStartOf]
    · refine ⟨⟨by simp [heq, hP1], by simp [heq], by simp [heq]⟩, ?_⟩
      rintro e he
      simp only [heq, List.mem_cons, List.mem_singleton, List.not_mem_nil,
        or_false] at he
      rcases he with rfl | rfl | rfl <;> simp [isCleanupStartOf]
  · refine Or.inr ⟨⟨by simpa using hP1, by simp, by simp⟩, ?_⟩
    rintro e he
    simp only [List.mem_singleton] at he
    simp [he, isCleanupStartOf]

/-- Uncharged states never see a cleanup of `c` invoked again unless a
new setup of `c` first completes returning a cleanup. -/
lemma uncharged_never {c : Nat} {acts : List Act} {s s' : RState}
    {evs : List Event} (hP : uncharged s c)
    (hex : exec s acts = some (s', evs))
    (hno : Event.setupDone c SetupOutcome.retCleanup ∉ evs) :
    uncharged s' c ∧ Event.cleanupStart c ∉ evs := by
  have := exec_never (fun s => uncharged s c) (isCleanupStartOf c)
    (isSetupRetOf c) (uncharged_step c) hP hex ?_
  · refine ⟨this.1, ?_⟩
    intro hmem
    have := this.2 _ hmem
    simp [isCleanupStartOf] at this
  · intro e he
    cases hiso : isSetupRetOf c e
    · rfl
    · exfalso
      have : e = Event.setupDone c SetupOutcome.retCleanup := by
        simpa [isSetupRetOf] using hiso
      exact hno (this ▸ he)

/-- C6: when a task's setup fails (throws/rejects) before returning a
cleanup, no cleanup is ever stored or invoked for that task — concretely,
unless some setup of `t` completes returning a cleanup
(`setupDone t retCleanup`), the trace contains no `cleanupStart t` and the
state never stores `t`'s cleanup.  The rejection is caught by the `try`
around `await next()` and reported (that is what the `threw` outcome
denotes), nothing is re-thrown, and the loop proceeds: from the failing
await the runner directly starts a subsequently submitted task `B`. -/
theorem claim_c6 :
    (∀ s tr t, Reach s tr →
      Event.setupDone t SetupOutcome.retCleanup ∉ tr →
      s.currentCleanup ≠ some t ∧ Event.cleanupStart t ∉ tr) ∧
    (∀ s tr t B, Reach s tr → s.pc = PC.setup t → s.lastEffect = none →
      s.stopRequested = false →
      ∃ s' evs,
        exec s [Act.setupSettle SetupOutcome.threw, Act.runA B, Act.microA] =
          some (s', evs) ∧
        evs = [Event.setupDone t SetupOutcome.threw, Event.runCall B,
          Event.setupStart B] ∧
        s'.currentCleanup = s.currentCleanup) := by
  constructor
  · rintro s tr t hr hno
    obtain ⟨acts, hacts⟩ := hr
    have h := uncharged_never
      (⟨by simp [initState], by simp [initState], by simp [initState]⟩ :
        uncharged initState t)
      hacts hno
    exact ⟨h.1.1, h.2⟩
  · rintro s tr t B hr hpc hle hsr
    have hI := inv_reach hr
    have hcc : s.currentCleanup = none := hI.2.2.2 (by simp [hpc, inLoopBody])
    obtain ⟨le, sr, cc, il, pc⟩ := s
    dsimp only at hpc hle hsr hcc
    have hil : il = true := hI.1.mpr (by simp [hpc])
    subst hpc hle hsr hcc hil
    refine ⟨{ lastEffect := none, stopRequested := false,
              currentCleanup := none, isLooping := true, pc := PC.setup B },
      [Event.setupDone t SetupOutcome.threw, Event.runCall B,
        Event.setupStart B], ?_, rfl, rfl⟩
    simp [exec, step, ensureLoop, startLoop]

theorem claim_c6_witness :
    ∃ s' evs,
      exec { lastEffect := none, stopRequested := false,
             currentCleanup := none, isLooping := true, pc := PC.setup 0 }
        [Act.setupSettle SetupOutcome.threw, Act.runA 1, Act.microA] =
        some (s', evs) ∧
      evs = [Event.setupDone 0 SetupOutcome.threw, Event.runCall 1,
        Event.setupStart 1] ∧
      s'.currentCleanup =
        ({ lastEffect := none, stopRequested := false, currentCleanup := none,
           isLooping := true, pc := PC.setup 0 } : RState).currentCleanup :=
  claim_c6.2
    { lastEffect := none, stopRequested := false, currentCleanup := none,
      isLooping := true, pc := PC.setup 0 }
    [Event.runCall 0, Event.loopStarted, Event.setupStart 0]
    0 1 ⟨[Act.runA 0], by decide⟩ rfl rfl rfl

/-- C7: a stored cleanup is cleared from the runner's state in the same
synchronous segment that invokes it — every step that emits
`cleanupStart c` leaves `currentCleanup` empty, and it only fires for a
stored cleanup (or one being stored by the setup resumption in that very
segment); once its settlement `cleanupDone c _` is in the past the
cleanup is never retried unless a new setup of `c` completes returning a
fresh one; a failing settlement (`ok = false`, caught and reported by the
`try`/`catch` around `await fn()`) produces exactly the same successor
state as a successful one; and the resumption after a cleanup is always
enabled, so cleanup failure never blocks the loop. -/
theorem claim_c7 :
    (∀ s a s' evs c, step s a = some (s', evs) →
      Event.cleanupStart c ∈ evs →
      s'.currentCleanup = none ∧
      (s.currentCleanup = some c ∨
        s.pc = PC.afterSetup c SetupOutcome.retCleanup)) ∧
    (∀ s c acts s' evs, uncharged s c → exec s acts = some (s', evs) →
      Event.setupDone c SetupOutcome.retCleanup ∉ evs →
      Event.cleanupStart c ∉ evs) ∧
    (∀ s sh nx c, s.pc = PC.cleanup sh nx c →
      ∃ s', step s (Act.cleanupSettle false) =
          some (s', [Event.cleanupDone c false]) ∧
        step s (Act.cleanupSettle true) =
          some (s', [Event.cleanupDone c true])) ∧
    (∀ s sh nx, s.pc = PC.afterCleanup sh nx → step s Act.microA ≠ none) := by
  refine ⟨?_, ?_, ?_, ?_⟩
  · rintro s a s' evs c hstep hmem
    rcases step_characterize hstep with
      ⟨t, -, hil, rfl, rfl⟩ | ⟨t, -, hil, rfl, rfl⟩ | ⟨-, hil, rfl, rfl⟩ |
      ⟨-, hil, rfl, rfl⟩ | ⟨sh, nx, c₀, ok, -, hpc, rfl, rfl⟩ |
      ⟨t, o, -, hpc, rfl, rfl⟩ | ⟨nx, -, hpc, rfl, rfl⟩ |
      ⟨t, -, hpc, rfl, rfl⟩ | ⟨-, hpc, rfl, rfl⟩ | ⟨t, -, hpc, rfl, rfl⟩ |
      ⟨t, o, -, hpc, ho, rfl, rfl⟩ | ⟨-, hpc, hw, rfl, rfl⟩ |
      ⟨-, hpc, hsr, hle, rfl, rfl⟩
    · simp at hmem
    · rcases startLoop_cases { s with lastEffect := some t, stopRequested := false, isLooping := true } with
        ⟨-, -, heq⟩ | ⟨c', hcc', -, heq⟩ | ⟨-, -, heq⟩ | ⟨t₀, -, -, -, heq⟩
      · simp [heq] at hmem
      · have hc : c = c' := by
          simp only [heq, List.mem_cons, List.mem_singleton, List.not_mem_nil,
            or_false] at hmem
          rcases hmem with h | h | h
          · exact absurd h (by simp)
          · exact absurd h (by simp)
          · simpa using h
        subst hc
        exact ⟨by simp [heq], Or.inl (by simpa using hcc')⟩
      · simp [heq] at hmem
      · simp [heq] at hmem
    · simp at hmem
    · rcases startLoop_cases { s with lastEffect := none, stopRequested := true, isLooping := true } with
        ⟨-, -, heq⟩ | ⟨c', hcc', -, heq⟩ | ⟨-, -, heq⟩ | ⟨t₀, -, -, -, heq⟩
      · simp [heq] at hmem
      · have hc : c = c' := by
          simp only [heq, List.mem_cons, List.mem_singleton, List.not_mem_nil,
            or_false] at hmem
          rcases hmem with h | h | h
          · exact absurd h (by simp)
          · exact absurd h (by simp)
          · simpa using h
        subst hc
        exact ⟨by simp [heq], Or.inl (by simpa using hcc')⟩
      · simp [heq] at hmem
      · simp [heq] at hmem
    · simp at hmem
    · simp at hmem
    · rcases startLoop_cases s with
        ⟨-, -, heq⟩ | ⟨c', hcc', -, heq⟩ | ⟨-, -, heq⟩ | ⟨t₀, -, -, -, heq⟩
      · simp [heq] at hmem
      · have hc : c = c' := by
          simp only [heq, List.mem_singleton] at hmem
          simpa using hmem
        subst hc
        exact ⟨by simp [heq], Or.inl hcc'⟩
      · simp [heq] at hmem
      · simp [heq] at hmem
    · simp at hmem
    · rcases startLoop_cases s with
        ⟨-, -, heq⟩ | ⟨c', hcc', -, heq⟩ | ⟨-, -, heq⟩ | ⟨t₀, -, -, -, heq⟩
      · simp [heq] at hmem
      · have hc : c = c' := by
          simp only [heq, List.mem_singleton] at hmem
          simpa using hmem
        subst hc
        exact ⟨by simp [heq], Or.inl hcc'⟩
      · simp [heq] at hmem
      · simp [heq] at hmem
    · rcases startLoop_cases { s with currentCleanup := some t } with
        ⟨-, -, heq⟩ | ⟨c', hcc', -, heq⟩ | ⟨-, -, heq⟩ | ⟨t₀, -, -, -, heq⟩
      · simp [heq] at hmem
      · have hc : c = c' := by
          simp only [heq, List.mem_singleton] at hmem
          simpa using hmem
        have htc : t = c' := by simpa using hcc'
        refine ⟨by simp [heq], Or.inr ?_⟩
        rw [hc, ← htc]
        exact hpc
      · simp [heq] at hmem
      · simp [heq] at hmem
    · rcases startLoop_cases s with
        ⟨-, -, heq⟩ | ⟨c', hcc', -, heq⟩ | ⟨-, -, heq⟩ | ⟨t₀, -, -, -, heq⟩
      · simp [heq] at hmem
      · have hc : c = c' := by
          simp only [heq, List.mem_singleton] at hmem
          simpa using hmem
        subst hc
        exact ⟨by simp [heq], Or.inl hcc'⟩
      · simp [heq] at hmem
      · simp [heq] at hmem
    · rcases startLoop_cases { s with isLooping := true } with
        ⟨-, -, heq⟩ | ⟨c', hcc', -, heq⟩ | ⟨-, -, heq⟩ | ⟨t₀, -, -, -, heq⟩
      · simp [heq] at hmem
      · have hc : c = c' := by
          simp only [heq, List.mem_cons, List.mem_singleton, List.not_mem_nil,
            or_false] at hmem
          rcases hmem with h | h | h
          · exact absurd h (by simp)
          · exact absurd h (by simp)
          · simpa using h
        subst hc
        exact ⟨by simp [heq], Or.inl (by simpa using hcc')⟩
      · simp [heq] at hmem
      · simp [heq] at hmem
    · simp at hmem
  · rintro s c acts s' evs hP hex hno
    exact (uncharged_never hP hex hno).2
  · rintro s sh nx c hpc
    exact ⟨{ s with pc := PC.afterCleanup sh nx },
      by simp [step, hpc], by simp [step, hpc]⟩
  · rintro s sh nx hpc
    cases sh <;> cases nx <;> simp [step, hpc]

theorem claim_c7_witness :
    ∃ s', step { lastEffect := none, stopRequested := false,
                 currentCleanup := none, isLooping := true,
                 pc := PC.cleanup false (some 1) 0 } (Act.cleanupSettle false) =
        some (s', [Event.cleanupDone 0 false]) ∧
      step { lastEffect := none, stopRequested := false,
             currentCleanup := none, isLooping := true,
             pc := PC.cleanup false (some 1) 0 } (Act.cleanupSettle true) =
        some (s', [Event.cleanupDone 0 true]) :=
  claim_c7.2.2.1
    { lastEffect := none, stopRequested := false, currentCleanup := none,
      isLooping := true, pc := PC.cleanup false (some 1) 0 }
    false (some 1) 0 rfl

/-- Event classifier: setup invocation of the specific task `t`. -/
def isSetupStartOf (t : Nat) (e : Event) : Bool :=
  e == Event.setupStart t

/-- Event classifier: a `run(t)` call for the specific task `t`. -/
def isRunCallOf (t : Nat) (e : Event) : Bool :=
  e == Event.runCall t

/-- Task `t` is nowhere in the pipeline: it is neither the pending task
nor the captured `next` of an iteration in its cleanup phase. -/
def notQueued (s : RState) (t : Nat) : Prop :=
  nxOf s.pc ≠ some t ∧ s.lastEffect ≠ some t

/-- The loop segment started from a state not queueing `t` leaves `t`
unqueued and starts no setup of `t`. -/
lemma startLoop_notQueued {s : RState} {t : Nat}
    (hle : s.lastEffect ≠ some t) :
    notQueued (startLoop s).1 t ∧
    ∀ e ∈ (startLoop s).2, isSetupStartOf t e = false := by
  rcases startLoop_cases s with
    ⟨-, -, heq⟩ | ⟨c', -, -, heq⟩ | ⟨-, -, heq⟩ | ⟨t₀, -, hle', -, heq⟩
  · refine ⟨⟨by simp [heq, nxOf], ?_⟩, by simp [heq]⟩
    simp only [heq]
    simpa using hle
  · refine ⟨⟨?_, by simp [heq]⟩, ?_⟩
    · simp only [heq, nxOf]
      simpa using hle
    · rintro e he
      simp only [heq, List.mem_singleton] at he
      simp [he, isSetupStartOf]
  · exact ⟨⟨by simp [heq, nxOf], by simp [heq]⟩, by simp [heq]⟩
  · have ht₀ : t₀ ≠ t := fun h => hle (h ▸ hle')
    refine ⟨⟨by simp [heq, nxOf], by simp [heq]⟩, ?_⟩
    rintro e he
    simp only [heq, List.mem_singleton] at he
    simp [he, isSetupStartOf, ht₀]

/-- Step obligation: a task that is nowhere in the pipeline can only
start if it is first resubmitted by a new `run(t)` call. -/
lemma notQueued_step (t : Nat) :
    ∀ s a s' evs, notQueued s t → step s a = some (s', evs) →
      (∃ e ∈ evs, isRunCallOf t e = true) ∨
      (notQueued s' t ∧ ∀ e ∈ evs, isSetupStartOf t e = false) := by
  rintro s a s' evs ⟨hP1, hP2⟩ hstep
  rcases step_characterize hstep with
    ⟨u, -, hil, rfl, rfl⟩ | ⟨u, -, hil, rfl, rfl⟩ | ⟨-, hil, rfl, rfl⟩ |
    ⟨-, hil, rfl, rfl⟩ | ⟨sh, nx, c₀, ok, -, hpc, rfl, rfl⟩ |
    ⟨u, o, -, hpc, rfl, rfl⟩ | ⟨nx, -, hpc, rfl, rfl⟩ |
    ⟨u, -, hpc, rfl, rfl⟩ | ⟨-, hpc, rfl, rfl⟩ | ⟨u, -, hpc, rfl, rfl⟩ |
    ⟨u, o, -, hpc, ho, rfl, rfl⟩ | ⟨-, hpc, hw, rfl, rfl⟩ |
    ⟨-, hpc, hsr, hle, rfl, rfl⟩
  · by_cases hu : u = t
    · exact Or.inl ⟨Event.runCall u, by simp, by simp [isRunCallOf, hu]⟩
    · refine Or.inr ⟨⟨by simpa using hP1, by simpa using hu⟩, ?_⟩
      rintro e he
      simp only [List.mem_singleton] at he
      simp [he, isSetupStartOf]
  · by_cases hu : u = t
    · exact Or.inl ⟨Event.runCall u, by simp, by simp [isRunCallOf, hu]⟩
    · have h := @startLoop_notQueued
        { s with lastEffect := some u, stopRequested := false, isLooping := true }
        t (by simpa using hu)
      refine Or.inr ⟨h.1, ?_⟩
      rintro e he
      simp only [List.mem_cons] at he
      rcases he with rfl | rfl | he
      · simp [isSetupStartOf]
      · simp [isSetupStartOf]
      · exact h.2 e he
  · refine Or.inr ⟨⟨by simpa using hP1, by simp⟩, ?_⟩
    rintro e he
    simp only [List.mem_singleton] at he
    simp [he, isSetupStartOf]
  · have h := @startLoop_notQueued
      { s with lastEffect := none, stopRequested := true, isLooping := true }
      t (by simp)
    refine Or.inr ⟨h.1, ?_⟩
    rintro e he
    simp only [List.mem_cons] at he
    rcases he with rfl | rfl | he
    · simp [isSetupStartOf]
    · simp [isSetupStartOf]
    · exact h.2 e he
  · refine Or.inr ⟨⟨?_, by simpa using hP2⟩, ?_⟩
    · have hnx : nx ≠ some t := by
        rw [hpc] at hP1
        simpa [nxOf] using hP1
      simpa [nxOf] using hnx
    · rintro e he
      simp only [List.mem_singleton] at he
      simp [he, isSetupStartOf]
  · refine Or.inr ⟨⟨by simp [nxOf], by simpa using hP2⟩, ?_⟩
    rintro e he
    simp only [List.mem_singleton] at he
    simp [he, isSetupStartOf]
  · have h := @startLoop_notQueued s t hP2
    exact Or.inr ⟨h.1, h.2⟩
  · have hu : u ≠ t := by
      rw [hpc] at hP1
      simpa [nxOf] using hP1
    refine Or.inr ⟨⟨by simp [nxOf], by simpa using hP2⟩, ?_⟩
    rintro e he
    simp only [List.mem_singleton] at he
    simp [he, isSetupStartOf, hu]
  · have h := @startLoop_notQueued s t hP2
    exact Or.inr ⟨h.1, h.2⟩
  · have h := @startLoop_notQueued
      { s with currentCleanup := some u } t (by simpa using hP2)
    exact Or.inr ⟨h.1, h.2⟩
  · have h := @startLoop_notQueued s t hP2
    exact Or.inr ⟨h.1, h.2⟩
  · have h := @startLoop_notQueued
      { s with isLooping := true } t (by simpa using hP2)
    refine Or.inr ⟨h.1, ?_⟩
    rintro e he
    simp only [List.mem_cons] at he
    rcases he with rfl | rfl | he
    · simp [isSetupStartOf]
    · simp [isSetupStartOf]
    · exact h.2 e he
  · refine Or.inr ⟨⟨by simp [nxOf], by simp [hle]⟩, ?_⟩
    rintro e he
    simp only [List.mem_singleton] at he
    simp [he, isSetupStartOf]

/-- C5: `stop()` clears the pending task — any task not already captured
as a running iteration's `next` snapshot, in particular whatever sits in
`lastEffect` at that moment, is discarded and (unless resubmitted by a
later `run`) never starts — sets the shutdown-request flag, and ensures
the loop is running.  When the loop then services the shutdown with no newer task it
invokes and awaits the stored cleanup (if any) and goes idle without
starting any task; the runner stays reusable: a subsequent `run(t)`
restarts it and `t`'s setup is invoked.  (In the composite call from an
idle runner the flag is set and consumed inside the same call, which is
why the flag's post-state is only asserted for a running loop.) -/
theorem claim_c5 :
    (∀ s s' evs, step s Act.stopA = some (s', evs) →
      s'.lastEffect = none ∧ s'.isLooping = true ∧
      (s.isLooping = true → s'.stopRequested = true ∧
        evs = [Event.stopCall]) ∧
      (∀ u, Event.setupStart u ∉ evs)) ∧
    (∀ s t s₁ e₁ acts s₂ e₂, nxOf s.pc ≠ some t →
      step s Act.stopA = some (s₁, e₁) → exec s₁ acts = some (s₂, e₂) →
      Event.runCall t ∉ e₂ → Event.setupStart t ∉ e₂) ∧
    (∀ s tr c, Reach s tr → s.pc = PC.idle → s.currentCleanup = some c →
      ∃ s' evs,
        exec s [Act.stopA, Act.cleanupSettle true, Act.microA, Act.finallyA] =
          some (s', evs) ∧
        s'.pc = PC.idle ∧ s'.currentCleanup = none ∧
        Event.cleanupDone c true ∈ evs ∧ ∀ u, Event.setupStart u ∉ evs) ∧
    (∀ s tr t, Reach s tr → s.pc = PC.idle →
      ∃ acts s' evs, exec s (Act.runA t :: acts) = some (s', evs) ∧
        Event.setupStart t ∈ evs) := by
  refine ⟨?_, ?_, ?_, ?_⟩
  · rintro s s' evs hstep
    rcases step_characterize hstep with
      ⟨u, ha, -, -, -⟩ | ⟨u, ha, -, -, -⟩ | ⟨-, hil, rfl, rfl⟩ |
      ⟨-, hil, rfl, rfl⟩ | ⟨sh, nx, c, ok, ha, -, -, -⟩ |
      ⟨u, o, ha, -, -, -⟩ | ⟨nx, ha, -, -, -⟩ | ⟨u, ha, -, -, -⟩ |
      ⟨ha, -, -, -⟩ | ⟨u, ha, -, -, -⟩ | ⟨u, o, ha, -, -, -, -⟩ |
      ⟨ha, -, -, -, -⟩ | ⟨ha, -, -, -, -, -⟩
    · exact absurd ha (by simp)
    · exact absurd ha (by simp)
    · exact ⟨by simp, by simpa using hil, fun _ => ⟨by simp, rfl⟩, by simp⟩
    · refine ⟨(startLoop_flags _).1, ?_, ?_, ?_⟩
      · rw [startLoop_isLooping]
      · intro h; exact absurd h (by simp [hil])
      · intro u
        rcases startLoop_cases { s with lastEffect := none, stopRequested := true, isLooping := true } with
          ⟨-, -, heq⟩ | ⟨c, -, -, heq⟩ | ⟨-, -, heq⟩ | ⟨t₀, -, hle', -, heq⟩
        · simp [heq]
        · simp [heq]
        · simp [heq]
        · exact absurd hle' (by simp)
    · exact absurd ha (by simp)
    · exact absurd ha (by simp)
    · exact absurd ha (by simp)
    · exact absurd ha (by simp)
    · exact absurd ha (by simp)
    · exact absurd ha (by simp)
    · exact absurd ha (by simp)
    · exact absurd ha (by simp)
    · exact absurd ha (by simp)
  · rintro s t s₁ e₁ acts s₂ e₂ hP1 hstep hex hno
    have hP₁ : notQueued s₁ t := by
      rcases step_characterize hstep with
        ⟨u, ha, -, -, -⟩ | ⟨u, ha, -, -, -⟩ | ⟨-, -, rfl, -⟩ |
        ⟨-, -, rfl, -⟩ | ⟨sh, nx, c, ok, ha, -, -, -⟩ |
        ⟨u, o, ha, -, -, -⟩ | ⟨nx, ha, -, -, -⟩ | ⟨u, ha, -, -, -⟩ |
        ⟨ha, -, -, -⟩ | ⟨u, ha, -, -, -⟩ | ⟨u, o, ha, -, -, -, -⟩ |
        ⟨ha, -, -, -, -⟩ | ⟨ha, -, -, -, -, -⟩
      · exact absurd ha (by simp)
      · exact absurd ha (by simp)
      · -- stop while looping: lastEffect cleared, pc untouched
        exact ⟨by simpa using hP1, by simp⟩
      · -- stop from idle: the synchronous segment starts from an empty
        -- lastEffect, so it cannot queue `t`
        exact (@startLoop_notQueued
          { s with lastEffect := none, stopRequested := true, isLooping := true }
          t (by simp)).1
      · exact absurd ha (by simp)
      · exact absurd ha (by simp)
      · exact absurd ha (by simp)
      · exact absurd ha (by simp)
      · exact absurd ha (by simp)
      · exact absurd ha (by simp)
      · exact absurd ha (by simp)
      · exact absurd ha (by simp)
      · exact absurd ha (by simp)
    have hnever := exec_never (fun s => notQueued s t) (isSetupStartOf t)
      (isRunCallOf t) (notQueued_step t) hP₁ hex ?_
    · intro hmem
      have := hnever.2 _ hmem
      simp [isSetupStartOf] at this
    · intro e he
      cases hre : isRunCallOf t e
      · rfl
      · exfalso
        have : e = Event.runCall t := by simpa [isRunCallOf] using hre
        exact hno (this ▸ he)
  · rintro s tr c hr hpc hcc
    have hI := inv_reach hr
    obtain ⟨le, sr, cc, il, pc⟩ := s
    dsimp only at hpc hcc
    subst hpc hcc
    obtain ⟨hle, hsr⟩ := hI.2.1 rfl
    dsimp only at hle hsr
    have hil : il = false := by
      rcases hil' : il
      · rfl
      · exact absurd (hI.1.mp hil') (by simp)
    subst hle hsr hil
    refine ⟨{ lastEffect := none, stopRequested := false,
              currentCleanup := none, isLooping := false, pc := PC.idle },
      [Event.stopCall, Event.loopStarted, Event.cleanupStart c,
        Event.cleanupDone c true, Event.loopExited], ?_, rfl, rfl, ?_, ?_⟩
    · simp [exec, step, ensureLoop, startLoop]
    · simp
    · intro u
      simp
  · rintro s tr t hr hpc
    have hI := inv_reach hr
    obtain ⟨le, sr, cc, il, pc⟩ := s
    dsimp only at hpc
    subst hpc
    obtain ⟨hle, hsr⟩ := hI.2.1 rfl
    dsimp only at hle hsr
    have hil : il = false := by
      rcases hil' : il
      · rfl
      · exact absurd (hI.1.mp hil') (by simp)
    subst hle hsr hil
    cases cc with
    | none =>
        refine ⟨[], { lastEffect := none, stopRequested := false,
                      currentCleanup := none, isLooping := true, pc := PC.setup t },
          [Event.runCall t, Event.loopStarted, Event.setupStart t], ?_, ?_⟩
        · simp [exec, step, ensureLoop, startLoop]
        · simp
    | some c =>
        refine ⟨[Act.cleanupSettle true, Act.microA],
          { lastEffect := none, stopRequested := false,
            currentCleanup := none, isLooping := true, pc := PC.setup t },
          [Event.runCall t, Event.loopStarted, Event.cleanupStart c,
            Event.cleanupDone c true, Event.setupStart t], ?_, ?_⟩
        · simp [exec, step, ensureLoop, startLoop]
        · simp

theorem claim_c5_witness :
    ∃ s' evs,
      exec { lastEffect := none, stopRequested := false,
             currentCleanup := some 0, isLooping := false, pc := PC.idle }
        [Act.stopA, Act.cleanupSettle true, Act.microA, Act.finallyA] =
        some (s', evs) ∧
      s'.pc = PC.idle ∧ s'.currentCleanup = none ∧
      Event.cleanupDone 0 true ∈ evs ∧ ∀ u, Event.setupStart u ∉ evs :=
  claim_c5.2.2.1
    { lastEffect := none, stopRequested := false, currentCleanup := some 0,
      isLooping := false, pc := PC.idle }
    [Event.runCall 0, Event.loopStarted, Event.setupStart 0,
     Event.setupDone 0 SetupOutcome.retCleanup, Event.loopExited]
    0
    ⟨[Act.runA 0, Act.setupSettle SetupOutcome.retCleanup, Act.microA,
      Act.finallyA], by decide⟩
    rfl rfl

/-- `true` for the two public operations, `false` for the internal
settlement / microtask / finally actions. -/
def isExternal : Act → Bool
  | Act.runA _ => true
  | Act.stopA => true
  | _ => false

/-- A pending `run(t)` is always observed: without any further external
call, the system can always proceed (settling the in-flight awaits and
running the queued microtasks) until `t`'s setup is invoked. -/
lemma run_observed :
    ∀ s tr t, Reach s tr → s.lastEffect = some t →
      ∃ acts s' evs, exec s acts = some (s', evs) ∧
        Event.setupStart t ∈ evs ∧ ∀ a ∈ acts, isExternal a = false := by
  intro s tr t hr hle
  have hI := inv_reach hr
  have hsr : s.stopRequested = false := hI.2.2.1 (by simp [hle])
  obtain ⟨le, sr, cc, il, pc⟩ := s
  dsimp only at hle hsr
  subst hle hsr
  cases pc with
  | idle => exact absurd (hI.2.1 rfl).1 (by simp)
  | cleanup sh nx c =>
      have hcc : cc = none := hI.2.2.2 (by simp [inLoopBody])
      subst hcc
      cases sh with
      | true =>
          refine ⟨[Act.cleanupSettle true, Act.microA],
            ⟨none, false, none, il, PC.setup t⟩,
            [Event.cleanupDone c true, Event.setupStart t],
            ?_, by simp, by decide⟩
          simp [exec, step, startLoop]
      | false =>
          cases nx with
          | some u =>
              refine ⟨[Act.cleanupSettle true, Act.microA,
                  Act.setupSettle SetupOutcome.retNone, Act.microA],
                ⟨none, false, none, il, PC.setup t⟩,
                [Event.cleanupDone c true, Event.setupStart u,
                  Event.setupDone u SetupOutcome.retNone, Event.setupStart t],
                ?_, by simp, by decide⟩
              simp [exec, step, startLoop]
          | none =>
              refine ⟨[Act.cleanupSettle true, Act.microA],
                ⟨none, false, none, il, PC.setup t⟩,
                [Event.cleanupDone c true, Event.setupStart t],
                ?_, by simp, by decide⟩
              simp [exec, step, startLoop]
  | afterCleanup sh nx =>
      have hcc : cc = none := hI.2.2.2 (by simp [inLoopBody])
      subst hcc
      cases sh with
      | true =>
          refine ⟨[Act.microA], ⟨none, false, none, il, PC.setup t⟩,
            [Event.setupStart t], ?_, by simp, by decide⟩
          simp [exec, step, startLoop]
      | false =>
          cases nx with
          | some u =>
              refine ⟨[Act.microA, Act.setupSettle SetupOutcome.retNone,
                  Act.microA],
                ⟨none, false, none, il, PC.setup t⟩,
                [Event.setupStart u, Event.setupDone u SetupOutcome.retNone,
                  Event.setupStart t], ?_, by simp, by decide⟩
              simp [exec, step, startLoop]
          | none =>
              refine ⟨[Act.microA], ⟨none, false, none, il, PC.setup t⟩,
                [Event.setupStart t], ?_, by simp, by decide⟩
              simp [exec, step, startLoop]
  | setup u =>
      have hcc : cc = none := hI.2.2.2 (by simp [inLoopBody])
      subst hcc
      refine ⟨[Act.setupSettle SetupOutcome.retNone, Act.microA],
        ⟨none, false, none, il, PC.setup t⟩,
        [Event.setupDone u SetupOutcome.retNone, Event.setupStart t],
        ?_, by simp, by decide⟩
      simp [exec, step, startLoop]
  | afterSetup u o =>
      have hcc : cc = none := hI.2.2.2 (by simp [inLoopBody])
      subst hcc
      cases o with
      | retCleanup =>
          refine ⟨[Act.microA, Act.cleanupSettle true, Act.microA],
            ⟨none, false, none, il, PC.setup t⟩,
            [Event.cleanupStart u, Event.cleanupDone u true,
              Event.setupStart t], ?_, by simp, by decide⟩
          simp [exec, step, startLoop]
      | retNone =>
          refine ⟨[Act.microA], ⟨none, false, none, il, PC.setup t⟩,
            [Event.setupStart t], ?_, by simp, by decide⟩
          simp [exec, step, startLoop]
      | threw =>
          refine ⟨[Act.microA], ⟨none, false, none, il, PC.setup t⟩,
            [Event.setupStart t], ?_, by simp, by decide⟩
          simp [exec, step, startLoop]
  | finishing =>
      cases cc with
      | none =>
          refine ⟨[Act.finallyA], ⟨none, false, none, true, PC.setup t⟩,
            [Event.loopExited, Event.loopStarted, Event.setupStart t],
            ?_, by simp, by decide⟩
          simp [exec, step, ensureLoop, startLoop]
      | some c =>
          refine ⟨[Act.finallyA, Act.cleanupSettle true, Act.microA],
            ⟨none, false, none, true, PC.setup t⟩,
            [Event.loopExited, Event.loopStarted, Event.cleanupStart c,
              Event.cleanupDone c true, Event.setupStart t],
            ?_, by simp, by decide⟩
          simp [exec, step, ensureLoop, startLoop]

/-- A pending `stop()` is always serviced: without any further external
call, the system can always proceed until the runner is idle. -/
lemma stop_observed :
    ∀ s tr, Reach s tr → s.stopRequested = true →
      ∃ acts s' evs, exec s acts = some (s', evs) ∧ s'.pc = PC.idle ∧
        ∀ a ∈ acts, isExternal a = false := by
  intro s tr hr hsr
  have hI := inv_reach hr
  have hle : s.lastEffect = none := by
    cases hx : s.lastEffect with
    | none => rfl
    | some u => exact absurd (hI.2.2.1 (by simp [hx])) (by simp [hsr])
  obtain ⟨le, sr, cc, il, pc⟩ := s
  dsimp only at hle hsr
  subst hle hsr
  cases pc with
  | idle => exact absurd (hI.2.1 rfl).2 (by simp)
  | cleanup sh nx c =>
      have hcc : cc = none := hI.2.2.2 (by simp [inLoopBody])
      subst hcc
      cases sh with
      | true =>
          refine ⟨[Act.cleanupSettle true, Act.microA, Act.finallyA],
            ⟨none, false, none, false, PC.idle⟩,
            [Event.cleanupDone c true, Event.loopExited], ?_, rfl, by decide⟩
          simp [exec, step, ensureLoop, startLoop]
      | false =>
          cases nx with
          | some u =>
              refine ⟨[Act.cleanupSettle true, Act.microA,
                  Act.setupSettle SetupOutcome.retNone, Act.microA,
                  Act.finallyA],
                ⟨none, false, none, false, PC.idle⟩,
                [Event.cleanupDone c true, Event.setupStart u,
                  Event.setupDone u SetupOutcome.retNone, Event.loopExited],
                ?_, rfl, by decide⟩
              simp [exec, step, ensureLoop, startLoop]
          | none =>
              refine ⟨[Act.cleanupSettle true, Act.microA, Act.finallyA],
                ⟨none, false, none, false, PC.idle⟩,
                [Event.cleanupDone c true, Event.loopExited], ?_, rfl,
                by decide⟩
              simp [exec, step, ensureLoop, startLoop]
  | afterCleanup sh nx =>
      have hcc : cc = none := hI.2.2.2 (by simp [inLoopBody])
      subst hcc
      cases sh with
      | true =>
          refine ⟨[Act.microA, Act.finallyA],
            ⟨none, false, none, false, PC.idle⟩,
            [Event.loopExited], ?_, rfl, by decide⟩
          simp [exec, step, ensureLoop, startLoop]
      | false =>
          cases nx with
          | some u =>
              refine ⟨[Act.microA, Act.setupSettle SetupOutcome.retNone,
                  Act.microA, Act.finallyA],
                ⟨none, false, none, false, PC.idle⟩,
                [Event.setupStart u, Event.setupDone u SetupOutcome.retNone,
                  Event.loopExited], ?_, rfl, by decide⟩
              simp [exec, step, ensureLoop, startLoop]
          | none =>
              refine ⟨[Act.microA, Act.finallyA],
                ⟨none, false, none, false, PC.idle⟩,
                [Event.loopExited], ?_, rfl, by decide⟩
              simp [exec, step, ensureLoop, startLoop]
  | setup u =>
      have hcc : cc = none := hI.2.2.2 (by simp [inLoopBody])
      subst hcc
      refine ⟨[Act.setupSettle SetupOutcome.retNone, Act.microA, Act.finallyA],
        ⟨none, false, none, false, PC.idle⟩,
        [Event.setupDone u SetupOutcome.retNone, Event.loopExited],
        ?_, rfl, by decide⟩
      simp [exec, step, ensureLoop, startLoop]
  | afterSetup u o =>
      have hcc : cc = none := hI.2.2.2 (by simp [inLoopBody])
      subst hcc
      cases o with
      | retCleanup =>
          refine ⟨[Act.microA, Act.cleanupSettle true, Act.microA,
              Act.finallyA],
            ⟨none, false, none, false, PC.idle⟩,
            [Event.cleanupStart u, Event.cleanupDone u true,
              Event.loopExited], ?_, rfl, by decide⟩
          simp [exec, step, ensureLoop, startLoop]
      | retNone =>
          refine ⟨[Act.microA, Act.finallyA],
            ⟨none, false, none, false, PC.idle⟩,
            [Event.loopExited], ?_, rfl, by decide⟩
          simp [exec, step, ensureLoop, startLoop]
      | threw =>
          refine ⟨[Act.microA, Act.finallyA],
            ⟨none, false, none, false, PC.idle⟩,
            [Event.loopExited], ?_, rfl, by decide⟩
          simp [exec, step, ensureLoop, startLoop]
  | finishing =>
      cases cc with
      | none =>
          refine ⟨[Act.finallyA, Act.finallyA],
            ⟨none, false, none, false, PC.idle⟩,
            [Event.loopExited, Event.loopStarted, Event.loopExited],
            ?_, rfl, by decide⟩
          simp [exec, step, ensureLoop, startLoop]
      | some c =>
          refine ⟨[Act.finallyA, Act.cleanupSettle true, Act.microA,
              Act.finallyA],
            ⟨none, false, none, false, PC.idle⟩,
            [Event.loopExited, Event.loopStarted, Event.cleanupStart c,
              Event.cleanupDone c true, Event.loopExited],
            ?_, rfl, by decide⟩
          simp [exec, step, ensureLoop, startLoop]

/-- C9: no `run`/`stop` call is ever lost.  Whenever work is pending
(shutdown requested or a task submitted), the loop is active — the call
either started it or a running loop will observe the flags — and, with no
further external calls, the system always proceeds to invoke the pending
task's setup (for `run`) or to go idle (for `stop`); a caller never needs
to invoke the operation twice. -/
theorem claim_c9 :
    (∀ s tr, Reach s tr → (s.stopRequested = true ∨ s.lastEffect ≠ none) →
      s.pc ≠ PC.idle ∧ s.isLooping = true) ∧
    (∀ s tr t, Reach s tr → s.lastEffect = some t →
      ∃ acts s' evs, exec s acts = some (s', evs) ∧
        Event.setupStart t ∈ evs ∧ ∀ a ∈ acts, isExternal a = false) ∧
    (∀ s tr, Reach s tr → s.stopRequested = true →
      ∃ acts s' evs, exec s acts = some (s', evs) ∧ s'.pc = PC.idle ∧
        ∀ a ∈ acts, isExternal a = false) := by
  refine ⟨?_, run_observed, stop_observed⟩
  intro s tr hr hw
  have hI := inv_reach hr
  have hne : s.pc ≠ PC.idle := by
    intro hidle
    obtain ⟨hle, hsr⟩ := hI.2.1 hidle
    rcases hw with hw | hw
    · rw [hsr] at hw; exact Bool.false_ne_true hw
    · exact hw hle
  exact ⟨hne, hI.1.mpr hne⟩

theorem claim_c9_witness :
    ∃ acts s' evs,
      exec { lastEffect := some 1, stopRequested := false,
             currentCleanup := none, isLooping := true, pc := PC.setup 0 }
        acts = some (s', evs) ∧
      Event.setupStart 1 ∈ evs ∧ ∀ a ∈ acts, isExternal a = false :=
  claim_c9.2.1
    { lastEffect := some 1, stopRequested := false, currentCleanup := none,
      isLooping := true, pc := PC.setup 0 }
    [Event.runCall 0, Event.loopStarted, Event.setupStart 0, Event.runCall 1]
    1 ⟨[Act.runA 0, Act.runA 1], by decide⟩ rfl
